import Mathlib

/-!
# go-proxy: request dispatch pipeline, backend registry and selection cache

A shallow embedding of `internal/router` (router.go, default.go, utils.go) together
with the library behaviour it relies on (go-cache, tollbooth, `path`, `strconv`,
`math/rand`, gin handler chains), and the properties of the dispatch pipeline
proved over it.

Conventions
* Instants and durations are Unix nanoseconds (`time.Time.UnixNano`,
  `time.Duration`) as integers; `int64` arithmetic on them wraps at 64 bits, both in
  `time.Duration(cacheExpiry)*time.Second` of the source and in the expiration
  `time.Now().Add(d).UnixNano()` that go-cache stores.
* A Go map `map[string]T` is a function `String → Option T`.
* A call that panics in Go returns `none`; a call that ends in `logger.Fatal`
  returns `Startup.fatal`.
* One call of `getProxy` reads the clock once (`now`) and the random source once
  (`draw`); both are inputs of the model.
-/

namespace GoProxy

/-! ## Machine integers -/

/-- Two's-complement wrap of an integer into the `int64` range. -/
def wrap64 (x : Int) : Int := (x + 2 ^ 63) % 2 ^ 64 - 2 ^ 63

/-- The reading `time.Time.UnixNano()` of an instant, an `int64`. Clock readings are
`int64` values and are read as they are; for an instant outside the `int64` range Go
leaves the result undefined, and it is read here as the nearest bound. -/
def UnixNano (t : Int) : Int := max (-(2 ^ 63)) (min t (2 ^ 63 - 1))

/-- The constant `time.Second`, in nanoseconds. -/
def Second : Int := 1000000000

/-! ## strconv.Atoi -/

/-- Value of a run of ASCII decimal digits, most significant first, on top of `acc`;
`none` when a byte is not a digit. -/
def parseDigits : List Char → Nat → Option Nat
  | [], acc => some acc
  | c :: cs, acc => if c.isDigit then parseDigits cs (acc * 10 + (c.toNat - 48)) else none

/-- Go's `strconv.Atoi` on a 64-bit platform: an optional sign, at least one decimal
digit, nothing else, and a value in the `int` range; otherwise an error (`none`). -/
def Atoi (s : String) : Option Int :=
  let body : Bool × List Char :=
    match s.data with
    | '-' :: r => (true, r)
    | '+' :: r => (false, r)
    | r => (false, r)
  match body.2 with
  | [] => none
  | ds =>
    match parseDigits ds 0 with
    | none => none
    | some n =>
      let v : Int := if body.1 then -(n : Int) else (n : Int)
      if -(2 ^ 63) ≤ v ∧ v < 2 ^ 63 then some v else none

/-! ## math/rand -/

/-- Go's `rand.Intn(n)`: panics for `n ≤ 0`, otherwise a value in `[0, n)`. The value
is determined by the generator's raw output `draw`. -/
def Intn (n : Nat) (draw : Nat) : Option Nat :=
  if n = 0 then none else some (draw % n)

/-! ## patrickmn/go-cache -/

/-- The constant `cache.DefaultExpiration`. -/
def DefaultExpiration : Int := 0

/-- The constant `cache.NoExpiration`. -/
def NoExpiration : Int := -1

/-- A go-cache `Item`: the stored object (always a backend URL here) and its
expiration instant; `Expiration ≤ 0` means the item never expires. -/
structure Item where
  Object : String
  Expiration : Int
deriving DecidableEq, Repr

/-- A go-cache `Cache`. -/
structure Cache where
  defaultExpiration : Int
  cleanupInterval : Int
  items : String → Option Item

/-- Go-cache `cache.New(defaultExpiration, cleanupInterval)`: an empty cache; a
default expiration of `0` is replaced by `-1` (no expiration). -/
def Cache.New (defaultExpiration cleanupInterval : Int) : Cache :=
  { defaultExpiration := if defaultExpiration = 0 then -1 else defaultExpiration
    cleanupInterval := cleanupInterval
    items := fun _ => none }

/-- Go-cache `Item.Expired` as used by `Get` and `DeleteExpired`. -/
def Item.expiredAt (it : Item) (now : Int) : Bool :=
  decide (0 < it.Expiration) && decide (it.Expiration < now)

/-- Go-cache `(*cache).Get(k)` at clock reading `now`: the object, or not found
when the key is absent or its item has expired (`time.Now().UnixNano()` is past a
positive `Expiration`). -/
def Cache.Get (c : Cache) (k : String) (now : Int) : Option String :=
  match c.items k with
  | none => none
  | some item => if item.expiredAt (UnixNano now) then none else some item.Object

/-- Go-cache `(*cache).Set(k, x, d)` at clock reading `now`: for a positive duration
the stored expiration is `time.Now().Add(d).UnixNano()`, an `int64` that wraps; for
any other duration it is `0`, no expiration. -/
def Cache.Set (c : Cache) (k : String) (x : String) (d : Int) (now : Int) : Cache :=
  let d := if d = DefaultExpiration then c.defaultExpiration else d
  let e : Int := if 0 < d then wrap64 (UnixNano now + d) else 0
  { c with items := fun k' => if k' = k then some { Object := x, Expiration := e } else c.items k' }

/-- Go-cache `(*cache).DeleteExpired()`, run by the janitor every `cleanupInterval`. -/
def Cache.DeleteExpired (c : Cache) (now : Int) : Cache :=
  { c with items := fun k =>
      match c.items k with
      | none => none
      | some item => if item.expiredAt (UnixNano now) then none else some item }

/-! ## Go's `path` and `strings` packages -/

/-- The elements of a path: the runs between `/` separators, empty runs included
(`strings.Split(p, "/")`). -/
def splitSlash : List Char → List (List Char)
  | [] => [[]]
  | c :: cs =>
    if c = '/' then [] :: splitSlash cs
    else
      match splitSlash cs with
      | [] => [[c]]
      | s :: ss => (c :: s) :: ss

/-- The output buffer of `path.Clean`, element-wise: `dotdots` counts the leading
`..` elements that can no longer be removed (the region below the `dotdot` mark of
the Go loop), `elems` holds the real elements written above the mark, most recent
first. -/
structure lazybuf where
  dotdots : Nat
  elems : List (List Char)

/-- One iteration of the loop of `path.Clean` on the path element `e`: an empty
element and a `.` element are skipped, a `..` element removes the last real element
when there is one, is dropped on a rooted path and is kept otherwise, and any other
element is copied. -/
def cleanElem (rooted : Bool) (out : lazybuf) (e : List Char) : lazybuf :=
  if e = [] then out
  else if e = ['.'] then out
  else if e = ['.', '.'] then
    match out.elems with
    | _ :: rest => { out with elems := rest }
    | [] => if rooted then out else { out with dotdots := out.dotdots + 1 }
  else { out with elems := e :: out.elems }

/-- The elements of a path joined with single `/` separators. -/
def joinSlash : List (List Char) → List Char
  | [] => []
  | [e] => e
  | e :: es => e ++ '/' :: joinSlash es

/-- The text held by the output buffer of `path.Clean`. -/
def lazybuf.string (rooted : Bool) (out : lazybuf) : List Char :=
  let body := joinSlash (List.replicate out.dotdots ['.', '.'] ++ out.elems.reverse)
  if rooted then '/' :: body else body

/-- `path.Clean` on the characters of a path. -/
def cleanChars (p : List Char) : List Char :=
  match p with
  | [] => ['.']
  | c :: _ =>
    let rooted : Bool := decide (c = '/')
    let out := (splitSlash p).foldl (cleanElem rooted) { dotdots := 0, elems := [] }
    match out.string rooted with
    | [] => ['.']
    | r => r

/-- Go's `path.Clean`: the shortest path equivalent to `path` by lexical processing
(multiple slashes collapsed, `.` elements removed, inner `..` elements removed with
the element before them, `..` at the root removed, the empty result written `.`). -/
def Clean (path : String) : String := ⟨cleanChars path.data⟩

/-- The text after the last `/` of a path (the whole path when it has none). -/
def afterLastSlash (p : List Char) : List Char :=
  (p.reverse.takeWhile (fun c => c ≠ '/')).reverse

/-- A path without its trailing slashes. -/
def stripTrailingSlashes (p : List Char) : List Char :=
  (p.reverse.dropWhile (fun c => c = '/')).reverse

/-- `path.Base` on the characters of a path. -/
def baseChars (p : List Char) : List Char :=
  match p with
  | [] => ['.']
  | _ =>
    match afterLastSlash (stripTrailingSlashes p) with
    | [] => ['/']
    | r => r

/-- Go's `path.Base`: the last element of the path, trailing slashes removed
first; `.` for the empty path and `/` for a path of slashes only. -/
def Base (path : String) : String := ⟨baseChars path.data⟩

/-- Go's `path.Join`: the elements from the first non-empty one on, joined with
`/`, then cleaned; the empty string when every element is empty. -/
def Join (elem : List String) : String :=
  match elem.dropWhile (fun e => e = "") with
  | [] => ""
  | es => Clean (String.intercalate "/" es)

/-- Go's `strings.HasPrefix`. -/
def HasPrefix (s pfx : String) : Bool := pfx.data.isPrefixOf s.data

/-- The final segment of a path in the sense of the specification: the text after
its last `/`. -/
def finalSegment (p : String) : String :=
  ⟨(splitSlash p.data).getLast?.getD []⟩

/-! ## didip/tollbooth -/

/-- The fields of a tollbooth `limiter.Limiter` that this program reads or sets. -/
structure Limiter (F : Type) where
  max : F
  message : String
  messageContentType : String
  statusCode : Nat

/-- Tollbooth `errors.HTTPError`. -/
structure HTTPError where
  Message : String
  StatusCode : Nat
deriving DecidableEq, Repr

/-- Tollbooth `tollbooth.NewLimiter(max, options)`: a limiter with the library
defaults (status code 429 and the library's message). -/
def NewLimiter {F : Type} (max : F) : Limiter F :=
  { max := max
    message := "You have reached maximum request limit."
    messageContentType := "text/plain; charset=utf-8"
    statusCode := 429 }

/-- Tollbooth `(*Limiter).SetMessage`. -/
def Limiter.SetMessage {F : Type} (lmt : Limiter F) (msg : String) : Limiter F :=
  { lmt with message := msg }

/-- Tollbooth `tollbooth.LimitByKeys(lmt, keys)`: an `HTTPError` carrying the limiter's
message and status code when the limit for the keys is reached, `nil` otherwise. The
token-bucket decision itself is the input `limitReached`. -/
def LimitByKeys {F : Type} (lmt : Limiter F) (_keys : List String) (limitReached : Bool) :
    Option HTTPError :=
  if limitReached then some { Message := lmt.message, StatusCode := lmt.statusCode } else none

/-! ## The router controller (router.go, utils.go) -/

/-- The fields of `config.Config` read by the router. -/
structure Config where
  AppName : String
  SysLog : String
  PerRequestLimit : String
  CacheExpiry : String
  SubServices : List String

/-- A `httputil.ReverseProxy` made by `NewSingleHostReverseProxy(url)` with the
transport this program installs. -/
structure ReverseProxy (U : Type) where
  target : U
  InsecureSkipVerify : Bool
deriving DecidableEq, Repr

/-- The fields of `routerController` that hold the backend registry, the selection
cache and the limiter. A `nil` cache or limiter is `none`. -/
structure routerController (U F : Type) where
  config : Config
  requestCache : Option Cache
  proxies : String → Option (ReverseProxy U)
  urls : List String
  rateLimiter : Option (Limiter F)

/-- The controller as `NewRouterController` allocates it, before
`initializeProxies` runs: an empty proxy map, no URLs, no cache, no limiter. -/
def routerController.new {U F : Type} (cfg : Config) : routerController U F :=
  { config := cfg, requestCache := none, proxies := fun _ => none, urls := [],
    rateLimiter := none }

/-- How start-up ends: the controller is ready, or `logger.Fatal` ended the process
with a message, leaving the controller as built so far. -/
inductive Startup (α : Type) where
  | ok (rc : α)
  | fatal (msg : String) (rc : α)

/-- The constant `time.Minute`, in nanoseconds. -/
def Minute : Int := 60 * Second

/-- The loop of `initializeProxies` over `rc.urls`: each URL is parsed (fatal on
error) and a reverse proxy for it is stored in `rc.proxies` under the URL string. -/
def registerProxies {U F : Type} (urlParse : String → Option U) :
    List String → routerController U F → Startup (routerController U F)
  | [], rc => .ok rc
  | urlString :: rest, rc =>
    match urlParse urlString with
    | none => .fatal "Invalid URL: %s" rc
    | some url =>
      let proxy : ReverseProxy U := { target := url, InsecureSkipVerify := true }
      registerProxies urlParse rest
        { rc with proxies := fun k => if k = urlString then some proxy else rc.proxies k }

/-- The method `routerController.initializeProxies` (utils.go). `urlParse` is
`url.Parse` and `parseFloat` is `strconv.ParseFloat(·, 64)`, `none` on error. -/
def initializeProxies {U F : Type} (urlParse : String → Option U)
    (parseFloat : String → Option F) (rc : routerController U F) :
    Startup (routerController U F) :=
  let subServices := rc.config.SubServices
  if subServices.length = 0 then .fatal "Error: SUB_SERVICES not set" rc
  else
    let rc := { rc with urls := subServices }
    match registerProxies urlParse rc.urls rc with
    | .fatal msg rc => .fatal msg rc
    | .ok rc =>
      match Atoi rc.config.CacheExpiry with
      | none => .fatal "Error parsing CACHE_EXPIRY" rc
      | some cacheExpiry =>
        let rc := { rc with
          requestCache := some (Cache.New (wrap64 (cacheExpiry * Second)) (10 * Minute)) }
        match parseFloat rc.config.PerRequestLimit with
        | none => .fatal "Error parsing PER_REQUEST_LIMIT" rc
        | some perRequestLimit =>
          .ok { rc with
            rateLimiter := some
              ((NewLimiter perRequestLimit).SetMessage "You have reached the request limit.") }

/-- The parts of an inbound `http.Request` the router reads or rewrites. -/
structure Request where
  Method : String
  Path : String
  RawQuery : String
  Host : String
  ClientIP : String
deriving DecidableEq, Repr

/-- The cache key of `getProxy`: `fmt.Sprintf("%s-%s", r.URL.Path, r.URL.RawQuery)`. -/
def requestIdentifier (r : Request) : String := r.Path ++ "-" ++ r.RawQuery

/-- The method `routerController.getProxy` (utils.go), run under `rc.mu`: the updated
controller and the proxy returned (`none` for a `nil` proxy); the outer `none` is a
panic (a `nil` cache, `rand.Intn(0)` or an index out of range). -/
def getProxy {U F : Type} (rc : routerController U F) (r : Request) (now : Int) (draw : Nat) :
    Option (routerController U F × Option (ReverseProxy U)) :=
  match rc.requestCache with
  | none => none
  | some cache =>
    match cache.Get (requestIdentifier r) now with
    | some cachedURL => some (rc, rc.proxies cachedURL)
    | none =>
      match Intn rc.urls.length draw with
      | none => none
      | some i =>
        match rc.urls[i]? with
        | none => none
        | some selectedURL =>
          let proxy := rc.proxies selectedURL
          some ({ rc with
                  requestCache :=
                    some (cache.Set (requestIdentifier r) selectedURL DefaultExpiration now) },
                proxy)

/-! ## The proxy handler (utils.go) -/

/-- A response produced locally by the gateway: a status code, the headers the
handler sets itself, and the fields of the JSON object in the body (none for an empty
body). -/
structure Reply where
  status : Nat
  headers : List (String × String)
  body : List (String × String)
deriving DecidableEq, Repr

/-- Gin `c.JSON(status, gin.H{"message": message})`. -/
def Reply.JSON (status : Nat) (message : String) : Reply :=
  { status := status, headers := [], body := [("message", message)] }

/-- What a request ends in: a local reply, a forward through a reverse proxy
(`proxy.ServeHTTP(w, r)` with the rewritten request), a redirect written by gin itself
(`http.Redirect` with a status code and a path), a panic, or `logger.Fatal`. -/
inductive Outcome (U : Type) where
  | reply (r : Reply)
  | redirect (code : Nat) (path : String)
  | forwarded (proxy : ReverseProxy U) (r : Request)
  | panicked
  | fatal (msg : String)
deriving DecidableEq, Repr

/-- The handlers this program installs in gin chains. `rateLimiterMiddleware i` is
the handler returned by the `i`-th call of `rc.rateLimiterMiddleware()`, each call
building a limiter of its own; `ginLogger` and `ginRecovery` are the two handlers of
`gin.Default()`. -/
inductive HandlerFunc where
  | ginLogger
  | ginRecovery
  | cors
  | rateLimiterMiddleware (i : Nat)
  | ipRangeAllowedMiddleware
  | ipAllowedMiddleware
  | welcome
  | opts
  | handleProxyRequest
  | notFound
deriving DecidableEq, Repr

/-- The steps a request goes through, in the order they run: a handler of the gin
chain, or one of the steps inside `handleProxyRequest` (its own limiter check, the
path normalization, the backend selection `getProxy`, the forward). -/
inductive Stage where
  | handler (h : HandlerFunc)
  | limitByKeys
  | normalize
  | selectBackend
  | forward
deriving DecidableEq, Repr

/-- The inputs of one request that come from outside the program: the decision of
the handler's token bucket, the clock, the random source, and whether `srslog.Dial`
succeeds. -/
structure Oracle where
  limitReached : Bool
  now : Int
  draw : Nat
  syslogDial : Bool

/-- The state of one request in flight through a chain. -/
structure Served (U F : Type) where
  rc : routerController U F
  request : Request
  outcome : Option (Outcome U)
  log : Option String
  trace : List Stage

/-- The path rewriting of `handleProxyRequest`: `path.Clean`, then, for a cleaned path
under `/api/`, `path.Join("/", path.Base(path))`. -/
def normalizePath (p : String) : String :=
  let p := Clean p
  if HasPrefix p "/api/" then Join ["/", Base p] else p

/-- The method `routerController.handleProxyRequest` (utils.go) on a request `c`. Each
step is recorded in the trace at the statement that performs it. -/
def handleProxyRequest {U F : Type} (rc : routerController U F) (c : Request) (o : Oracle) :
    Served U F :=
  let trace : List Stage := [.limitByKeys]
  match rc.rateLimiter with
  | none => { rc := rc, request := c, outcome := some .panicked, log := none, trace := trace }
  | some lmt =>
    match LimitByKeys lmt [c.ClientIP] o.limitReached with
    | some httpError =>
      { rc := rc, request := c,
        outcome := some (.reply (Reply.JSON httpError.StatusCode httpError.Message)),
        log := none, trace := trace }
    | none =>
      let r : Request := { c with Path := normalizePath c.Path }
      let trace := trace ++ [.normalize]
      let trace := trace ++ [.selectBackend]
      match getProxy rc r o.now o.draw with
      | none => { rc := rc, request := r, outcome := some .panicked, log := none,
                  trace := trace }
      | some (rc, proxy) =>
        let appName := rc.config.AppName
        let useSyslog : Bool := rc.config.SysLog = "true"
        if useSyslog && !o.syslogDial then
          { rc := rc, request := r, outcome := some (.fatal "Error setting up syslog"),
            log := none, trace := trace }
        else
          let log := "App: " ++ appName ++ " and proxy url: " ++ r.Host ++ r.Path
          let trace := trace ++ [.forward]
          match proxy with
          | none => { rc := rc, request := r, outcome := some .panicked, log := some log,
                      trace := trace }
          | some proxy =>
            { rc := rc, request := r, outcome := some (.forwarded proxy r),
              log := some log, trace := trace }

/-! ## The route table (router.go, default.go) over gin -/

/-- A registered route: method, absolute path pattern and the full handler chain. -/
structure RouteEntry where
  Method : String
  Path : String
  Handlers : List HandlerFunc
deriving DecidableEq, Repr

/-- The parts of a `gin.Engine` that registration and dispatch touch: the
engine-level middleware, the registered routes, the chain run when no route matches,
and the two routing switches this program sets. -/
structure Engine where
  Handlers : List HandlerFunc
  trees : List RouteEntry
  noRoute : List HandlerFunc
  allNoRoute : List HandlerFunc
  RedirectTrailingSlash : Bool
  RemoveExtraSlash : Bool
deriving DecidableEq, Repr

/-- A `gin.RouterGroup`: its base path and the middleware copied into it when it
was made. -/
structure RouterGroup where
  basePath : String
  Handlers : List HandlerFunc
deriving DecidableEq, Repr

/-- Gin `gin.Default()`: an engine with the settings of `gin.New()` (trailing-slash
redirects on, extra-slash removal off) and the Logger and Recovery middleware. -/
def Engine.Default : Engine :=
  { Handlers := [.ginLogger, .ginRecovery], trees := [], noRoute := [],
    allNoRoute := [.ginLogger, .ginRecovery],
    RedirectTrailingSlash := true, RemoveExtraSlash := false }

/-- Gin `(*Engine).Use`: appends engine-level middleware and rebuilds the no-route
chain from it. -/
def Engine.Use (e : Engine) (middleware : List HandlerFunc) : Engine :=
  { e with Handlers := e.Handlers ++ middleware,
           allNoRoute := (e.Handlers ++ middleware) ++ e.noRoute }

/-- Gin `joinPaths(absolutePath, relativePath)`. -/
def joinPaths (absolutePath relativePath : String) : String :=
  if relativePath = "" then absolutePath
  else
    let finalPath := Join [absolutePath, relativePath]
    if relativePath.data.getLast? = some '/' ∧ finalPath.data.getLast? ≠ some '/' then
      finalPath ++ "/"
    else finalPath

/-- Gin `(*Engine).Group(relativePath)`: a group that inherits the engine-level
middleware installed so far. -/
def Engine.Group (e : Engine) (relativePath : String) : RouterGroup :=
  { basePath := joinPaths "/" relativePath, Handlers := e.Handlers }

/-- Gin `(*RouterGroup).handle`: registers the group's middleware followed by the
given handlers under the absolute path. -/
def Engine.handle (e : Engine) (group : RouterGroup) (httpMethod relativePath : String)
    (handlers : List HandlerFunc) : Engine :=
  { e with trees := e.trees ++
      [{ Method := httpMethod, Path := joinPaths group.basePath relativePath,
         Handlers := group.Handlers ++ handlers }] }

/-- Gin `anyMethods`, the methods `(*RouterGroup).Any` registers. -/
def anyMethods : List String :=
  ["GET", "POST", "PUT", "PATCH", "HEAD", "OPTIONS", "DELETE", "CONNECT", "TRACE"]

/-- Gin `(*RouterGroup).Any`. -/
def Engine.Any (e : Engine) (group : RouterGroup) (relativePath : String)
    (handlers : List HandlerFunc) : Engine :=
  anyMethods.foldl (fun e m => e.handle group m relativePath handlers) e

/-- Gin `(*Engine).NoRoute`. -/
def Engine.NoRoute (e : Engine) (handlers : List HandlerFunc) : Engine :=
  { e with noRoute := handlers, allNoRoute := e.Handlers ++ handlers }

/-- A `RouteDefinition` of router.go. -/
structure RouteDefinition where
  Method : String
  Path : String
  HandlerFunc : GoProxy.HandlerFunc
  Middlewares : List GoProxy.HandlerFunc

/-- The method `routerController.registerRoutesToGroup` (utils.go): each definition
whose method is GET, POST, PUT, DELETE or OPTIONS is registered with its middlewares
followed by its handler; other methods are logged and skipped. -/
def registerRoutesToGroup (e : Engine) (group : RouterGroup) :
    List RouteDefinition → Engine
  | [] => e
  | route :: routes =>
    let handlers := route.Middlewares ++ [route.HandlerFunc]
    if route.Method ∈ ["GET", "POST", "PUT", "DELETE", "OPTIONS"] then
      registerRoutesToGroup (e.handle group route.Method route.Path handlers) group routes
    else registerRoutesToGroup e group routes

/-- The method `routerController.setupDefaultRoutes` (default.go). -/
def setupDefaultRoutes (e : Engine) (defaultGroup : RouterGroup) : Engine :=
  let defaultRoutes : List RouteDefinition :=
    [ { Method := "GET", Path := "/", HandlerFunc := .welcome, Middlewares := [] },
      { Method := "OPTIONS", Path := "/opts", HandlerFunc := .opts, Middlewares := [] } ]
  let e := registerRoutesToGroup e defaultGroup defaultRoutes
  let e := e.Any defaultGroup "/api/*proxyPath" [.rateLimiterMiddleware 1, .handleProxyRequest]
  e.NoRoute [.notFound]

/-- The gin engine as `NewRouterController` (router.go) configures it: CORS as
engine-level middleware, `RemoveExtraSlash` and `RedirectTrailingSlash` switched on,
then the rate limiter and the two IP filters as engine-level middleware, then the
default group and its routes. -/
def NewRouterController : Engine :=
  let e := Engine.Default
  let e := e.Use [.cors]
  let e := { e with RemoveExtraSlash := true }
  let e := { e with RedirectTrailingSlash := true }
  let e := e.Use [.rateLimiterMiddleware 0, .ipRangeAllowedMiddleware, .ipAllowedMiddleware]
  setupDefaultRoutes e (e.Group "/")

/-- Modelled from the spec: the handlers of `internal/middleware` (rate limiter, IP
range filter, IP allow-list filter) and of gin-contrib/cors are not part of the
sources; each is an opaque check on the request that either lets the chain go on
(`none`) or aborts it with a reply of its own, without invoking the next stage. -/
abbrev Middleware := HandlerFunc → Request → Option Reply

/-- Gin's handler loop (`c.Next()`), on the handlers still to run: middleware that
aborts ends the chain with its reply; the route handlers write their response; every
handler that runs is recorded in the trace. -/
def runChain {U F : Type} (mw : Middleware) (o : Oracle) :
    List HandlerFunc → Served U F → Served U F
  | [], s => s
  | h :: rest, s =>
    let s := { s with trace := s.trace ++ [Stage.handler h] }
    match h with
    | .ginLogger => runChain mw o rest s
    | .ginRecovery => runChain mw o rest s
    | .welcome =>
      runChain mw o rest { s with outcome := s.outcome <|> some (.reply
        (Reply.JSON 200 ("Welcome to the " ++ s.rc.config.AppName))) }
    | .opts =>
      runChain mw o rest { s with outcome := s.outcome <|> some (.reply
        { status := 204,
          headers := [("Access-Control-Allow-Methods", "GET, POST, PUT, DELETE, OPTIONS"),
                      ("Access-Control-Allow-Headers", "Origin, Content-Length, Content-Type")],
          body := [] }) }
    | .notFound =>
      runChain mw o rest { s with outcome := s.outcome <|> some (.reply
        (Reply.JSON 404 ("Method or route not found in: " ++ s.rc.config.AppName))) }
    | .handleProxyRequest =>
      let p := handleProxyRequest s.rc s.request o
      runChain mw o rest { rc := p.rc, request := p.request,
                           outcome := s.outcome <|> p.outcome,
                           log := p.log, trace := s.trace ++ p.trace }
    | h =>
      match mw h s.request with
      | some reply => { s with outcome := some (.reply reply) }
      | none => runChain mw o rest s

/-- A request entering a chain: nothing written, nothing run yet. -/
def Served.start {U F : Type} (rc : routerController U F) (r : Request) : Served U F :=
  { rc := rc, request := r, outcome := none, log := none, trace := [] }

/-! ## Dispatch of a request by gin -/

/-- Gin `cleanPath`, applied to the request path when `RemoveExtraSlash` is on: the
path is made rooted, empty and `.` elements are dropped, a `..` element removes the
element before it (or nothing at the root), and a trailing slash is kept (also for a
path that ends in a `.` element) unless the result is the root. -/
def cleanPath (p : String) : String :=
  match p.data with
  | [] => "/"
  | cs =>
    let segs := splitSlash cs
    let out := segs.foldl (cleanElem true) { dotdots := 0, elems := [] }
    let trailing : Bool :=
      (decide (1 < cs.length) && decide (cs.getLast? = some '/')) ||
        decide (segs.getLast? = some ['.'])
    let body := joinSlash out.elems.reverse
    ⟨'/' :: body ++ (if trailing ∧ body ≠ [] then ['/'] else [])⟩

/-- The literal part of a route pattern that ends in a catch-all `/*name`, `none` for
a pattern without one. (These are the two pattern forms this program registers.) -/
def catchAllBase : List Char → Option (List Char)
  | [] => none
  | c :: cs =>
    match c, cs with
    | '/', '*' :: _ => some []
    | _, _ => (catchAllBase cs).map (fun b => c :: b)

/-- A route holds a handler chain for the path: a literal pattern for exactly that
path, a catch-all pattern `base/*name` for every path that starts with `base/`. -/
def RouteEntry.accepts (e : RouteEntry) (rPath : String) : Bool :=
  match catchAllBase e.Path.data with
  | some base => (base ++ ['/']).isPrefixOf rPath.data
  | none => decide (e.Path = rPath)

/-- Gin's trailing-slash recommendation (`tsr`) for a route that does not hold the
path: the path and a literal pattern differ only by one trailing slash, or the path is
the `base` of a catch-all pattern `base/*name`. -/
def RouteEntry.tsr (e : RouteEntry) (rPath : String) : Bool :=
  match catchAllBase e.Path.data with
  | some base => decide (rPath.data = base)
  | none => decide (e.Path.data = rPath.data ++ ['/']) || decide (rPath.data = e.Path.data ++ ['/'])

/-- The result of gin's `(*node).getValue`. -/
inductive nodeValue where
  | handlers (hs : List HandlerFunc)
  | tsr
  | miss
deriving DecidableEq, Repr

/-- Gin's lookup of a path in the tree of a method, on the routes registered here:
the chain of the route that holds the path, else a trailing-slash recommendation when
some route of that method gives one. -/
def Engine.getValue (e : Engine) (httpMethod rPath : String) : nodeValue :=
  let root := e.trees.filter (fun r => decide (r.Method = httpMethod))
  match root.find? (fun r => r.accepts rPath) with
  | some r => .handlers r.Handlers
  | none => if root.any (fun r => r.tsr rPath) then .tsr else .miss

/-- What gin's `(*Engine).handleHTTPRequest` decides for a request: a handler chain to
run, or a redirect written without running any handler. -/
inductive Dispatch where
  | run (handlers : List HandlerFunc)
  | redirect (code : Nat) (path : String)
deriving DecidableEq, Repr

/-- Gin `redirectTrailingSlash` followed by `redirectRequest` (no `X-Forwarded-Prefix`
header): the request path with its trailing slash toggled, 301 for GET and 307 for
every other method. -/
def redirectTrailingSlash (r : Request) : Dispatch :=
  let p := r.Path.data
  let target : List Char :=
    if 1 < p.length ∧ p.getLast? = some '/' then p.dropLast else p ++ ['/']
  .redirect (if r.Method = "GET" then 301 else 307) ⟨target⟩

/-- Gin `(*Engine).handleHTTPRequest`: the path is cleaned when `RemoveExtraSlash` is
on and looked up in the tree of the request method; a route that holds it gives its
chain; otherwise, for a method other than CONNECT and a path other than `/`, a
trailing-slash recommendation with `RedirectTrailingSlash` on gives a redirect; in
every other case the no-route chain runs. -/
def Engine.handleHTTPRequest (e : Engine) (r : Request) : Dispatch :=
  let rPath := if e.RemoveExtraSlash then cleanPath r.Path else r.Path
  match e.getValue r.Method rPath with
  | .handlers hs => .run hs
  | .tsr =>
    if r.Method ≠ "CONNECT" ∧ rPath ≠ "/" ∧ e.RedirectTrailingSlash = true then
      redirectTrailingSlash r
    else .run e.allNoRoute
  | .miss => .run e.allNoRoute

/-- Gin `(*Engine).ServeHTTP` on a request: the chain `handleHTTPRequest` picks is run
on the request as it arrived, or the redirect is written. -/
def ServeHTTP {U F : Type} (e : Engine) (mw : Middleware) (o : Oracle)
    (rc : routerController U F) (r : Request) : Served U F :=
  match e.handleHTTPRequest r with
  | .run hs => runChain mw o hs (Served.start rc r)
  | .redirect code path =>
    { rc := rc, request := r, outcome := some (.redirect code path), log := none, trace := [] }

/-! ## Runs of the selection cache -/

/-- What happens to the selection cache over time: a proxied request reaches
`getProxy` with its rewritten path and query, or the janitor sweeps expired items. -/
inductive Event where
  | request (r : Request) (now : Int) (draw : Nat)
  | sweep (now : Int)

/-- The instant of an event. -/
def Event.time : Event → Int
  | .request _ now _ => now
  | .sweep now => now

/-- One event applied to the controller; a panicking `getProxy` leaves it as it is. -/
def step {U F : Type} (rc : routerController U F) : Event → routerController U F
  | .request r now draw =>
    match getProxy rc r now draw with
    | some (rc, _) => rc
    | none => rc
  | .sweep now => { rc with requestCache := rc.requestCache.map (fun c => c.DeleteExpired now) }

/-- A sequence of events applied in order. -/
def run {U F : Type} (rc : routerController U F) (events : List Event) : routerController U F :=
  events.foldl step rc

/-- The proxy `getProxy` returns for a request, or `none` on a panic or `nil`. -/
def routed {U F : Type} (rc : routerController U F) (r : Request) (now : Int) (draw : Nat) :
    Option (ReverseProxy U) :=
  match getProxy rc r now draw with
  | some (_, proxy) => proxy
  | none => none

/-! ## Scenario data used by the concrete checks -/

/-- The configuration of the scenario of the specification: two backends, a cache
expiry of five seconds, a rate limit of 100 requests per second. -/
def scenarioConfig : Config :=
  { AppName := "goproxy", SysLog := "false", PerRequestLimit := "100", CacheExpiry := "5",
    SubServices := ["http://b1:9000", "http://b2:9000"] }

/-- A stand-in for `url.Parse` in the scenario: every string but the empty one
parses, to itself. -/
def scenarioParse (s : String) : Option String := if s = "" then none else some s

/-- A stand-in for `strconv.ParseFloat` in the scenario: decimal integers only. -/
def scenarioFloat (s : String) : Option Int := Atoi s

/-- The controller of the scenario after `initializeProxies`. -/
def scenarioController : routerController String Int :=
  match initializeProxies scenarioParse scenarioFloat (routerController.new scenarioConfig) with
  | .ok rc => rc
  | .fatal _ rc => rc

/-- The scenario with a cache expiry of zero seconds. -/
def zeroExpiryConfig : Config := { scenarioConfig with CacheExpiry := "0" }

/-- The controller of the zero-expiry scenario after `initializeProxies`. -/
def zeroExpiryController : routerController String Int :=
  match initializeProxies scenarioParse scenarioFloat (routerController.new zeroExpiryConfig) with
  | .ok rc => rc
  | .fatal _ rc => rc

/-- The request `GET /api/foo?x=1` of the scenario, as `getProxy` sees it (path already
rewritten to `/foo`). -/
def scenarioRequest : Request :=
  { Method := "GET", Path := "/foo", RawQuery := "x=1", Host := "gateway", ClientIP := "10.0.0.7" }

/-- The safety invariant of the registry and the selection cache: the URL list is
not empty, every configured URL is a key of the proxy map, the cache exists, and
every value stored in it is one of the configured URLs. -/
def RegistryInv {U F : Type} (rc : routerController U F) : Prop :=
  rc.urls ≠ [] ∧ (∀ u ∈ rc.urls, (rc.proxies u).isSome = true) ∧
  ∃ c, rc.requestCache = some c ∧ ∀ k it, c.items k = some it → it.Object ∈ rc.urls

/-- The parts of the controller that no request and no sweep changes: configuration,
URL list, proxy map, limiter, and the settings of the cache. -/
def SameRegistry {U F : Type} (rc s : routerController U F) : Prop :=
  s.config = rc.config ∧ s.urls = rc.urls ∧ s.proxies = rc.proxies ∧
  s.rateLimiter = rc.rateLimiter ∧
  ∃ c c', rc.requestCache = some c ∧ s.requestCache = some c' ∧
    c'.defaultExpiration = c.defaultExpiration ∧ c'.cleanupInterval = c.cleanupInterval

/-- The scenario's cache after the first request was routed to the first backend at
instant `0`. -/
def scenarioCacheAfterFirst : Cache :=
  (Cache.New (wrap64 (5 * Second)) (10 * Minute)).Set
    (requestIdentifier scenarioRequest) "http://b1:9000" DefaultExpiration 0

/-! ## The order of the dispatch pipeline -/

/-- The chain `NewRouterController` registers for `/api/*proxyPath`. -/
def proxyChain : List HandlerFunc :=
  [.ginLogger, .ginRecovery, .cors, .rateLimiterMiddleware 0, .ipRangeAllowedMiddleware,
   .ipAllowedMiddleware, .rateLimiterMiddleware 1, .handleProxyRequest]

/-- The steps of a proxied request that nothing rejects, in the order they run. -/
def proxyStages : List Stage :=
  proxyChain.map Stage.handler ++ [.limitByKeys, .normalize, .selectBackend, .forward]

/-- The middleware in front of every route: gin's two handlers, CORS, the rate limiter
and the two IP filters. -/
def engineChain : List HandlerFunc :=
  [.ginLogger, .ginRecovery, .cors, .rateLimiterMiddleware 0, .ipRangeAllowedMiddleware,
   .ipAllowedMiddleware]

/-- The place of a step in the pipeline order the specification gives (§4.5): CORS,
rate limiter, IP-range filter, IP-allow-list filter, path normalization with backend
selection, forward. Steps the specification does not list have no place. -/
def Stage.specRank : Stage → Option Nat
  | .handler .cors => some 0
  | .handler (.rateLimiterMiddleware _) => some 1
  | .limitByKeys => some 1
  | .handler .ipRangeAllowedMiddleware => some 2
  | .handler .ipAllowedMiddleware => some 3
  | .normalize => some 4
  | .selectBackend => some 4
  | .forward => some 5
  | .handler _ => none

/-- The steps of a trace that belong to the dispatch pipeline of the specification,
by their place in its order. -/
def pipelineSteps (trace : List Stage) : List Nat := trace.filterMap Stage.specRank

/-- A trace follows the order of the specification when its pipeline steps come in
that order: no step is followed by a step with an earlier place. -/
def inSpecOrder (trace : List Stage) : Prop := (pipelineSteps trace).Pairwise (· ≤ ·)

instance (trace : List Stage) : Decidable (inSpecOrder trace) := by
  unfold inSpecOrder; infer_instance

/-- Middleware that lets every request through. -/
def passAll : Middleware := fun _ _ => none

/-- The reply of a rejecting rate-limiter middleware in the concrete checks. -/
def tooMany : Reply := { status := 429, headers := [], body := [("message", "limit")] }

/-- Middleware in which only the handler `g` rejects, with `tooMany`. -/
def rejectOnly (g : HandlerFunc) : Middleware := fun h _ => if h = g then some tooMany else none

/-- Outside inputs of a request that the handler's own limiter admits. -/
def admitted : Oracle := { limitReached := false, now := 0, draw := 0, syslogDial := true }

/-- The request `GET /api/foo?x=1` of the scenario as it arrives. -/
def scenarioInbound : Request := { scenarioRequest with Path := "/api/foo" }

/-- The request `GET /` of a client. -/
def scenarioRoot : Request :=
  { Method := "GET", Path := "/", RawQuery := "", Host := "gateway", ClientIP := "10.0.0.7" }

/-- A real path element: not empty, not `.`, not `..`, and without a separator. -/
def RealElem (e : List Char) : Prop :=
  e ≠ [] ∧ e ≠ ['.'] ∧ e ≠ ['.', '.'] ∧ '/' ∉ e

/-! ## Start-up lemmas -/

theorem registerProxies_ok {U F : Type} (f : String → Option U) :
    ∀ (l : List String) (rc rc' : routerController U F),
      registerProxies f l rc = .ok rc' →
      rc'.config = rc.config ∧ rc'.urls = rc.urls ∧ rc'.requestCache = rc.requestCache ∧
      rc'.rateLimiter = rc.rateLimiter ∧
      (∀ u ∈ l, ∃ url, f u = some url ∧ rc'.proxies u = some ⟨url, true⟩) ∧
      (∀ k, k ∉ l → rc'.proxies k = rc.proxies k) := by
  intro l
  induction l with
  | nil =>
    intro rc rc' h
    simp only [registerProxies, Startup.ok.injEq] at h
    subst h
    simp
  | cons a rest ih =>
    intro rc rc' h
    rw [registerProxies] at h
    cases hf : f a with
    | none => simp [hf] at h
    | some url =>
      simp only [hf] at h
      obtain ⟨h1, h2, h3, h4, h5, h6⟩ := ih _ _ h
      refine ⟨h1, h2, h3, h4, ?_, ?_⟩
      · intro u hu
        by_cases hr : u ∈ rest
        · exact h5 u hr
        · have hua : u = a := by
            rcases List.mem_cons.mp hu with h | h
            · exact h
            · exact absurd h hr
          subst hua
          refine ⟨url, hf, ?_⟩
          rw [h6 u hr]
          simp
      · intro k hk
        have hk1 : k ≠ a := fun e => hk (e ▸ List.mem_cons_self _ _)
        have hk2 : k ∉ rest := fun e => hk (List.mem_cons_of_mem _ e)
        rw [h6 k hk2]
        simp [hk1]

theorem registerProxies_fatal_iff {U F : Type} (f : String → Option U) :
    ∀ (l : List String) (rc : routerController U F),
      (∃ msg rc', registerProxies f l rc = .fatal msg rc') ↔ ∃ u ∈ l, f u = none := by
  intro l
  induction l with
  | nil => intro rc; simp [registerProxies]
  | cons a rest ih =>
    intro rc
    rw [registerProxies]
    cases hf : f a with
    | none =>
      simp only [List.mem_cons]
      constructor
      · intro _; exact ⟨a, Or.inl rfl, hf⟩
      · intro _; exact ⟨_, _, rfl⟩
    | some url =>
      simp only [List.mem_cons]
      rw [ih]
      constructor
      · rintro ⟨u, hu, h⟩; exact ⟨u, Or.inr hu, h⟩
      · rintro ⟨u, hu | hu, h⟩
        · subst hu; rw [hf] at h; cases h
        · exact ⟨u, hu, h⟩

/-- What a successful `initializeProxies` leaves in the controller. -/
theorem initializeProxies_ok {U F : Type} (urlParse : String → Option U)
    (parseFloat : String → Option F) (rc0 rc : routerController U F)
    (h : initializeProxies urlParse parseFloat rc0 = .ok rc) :
    rc.config = rc0.config ∧ rc.urls = rc0.config.SubServices ∧ rc.urls ≠ [] ∧
    (∀ u ∈ rc.urls, ∃ url, urlParse u = some url ∧ rc.proxies u = some ⟨url, true⟩) ∧
    (∃ E, Atoi rc0.config.CacheExpiry = some E ∧
      rc.requestCache = some (Cache.New (wrap64 (E * Second)) (10 * Minute))) ∧
    (∃ x, parseFloat rc0.config.PerRequestLimit = some x ∧
      rc.rateLimiter =
        some ((NewLimiter x).SetMessage "You have reached the request limit.")) := by
  unfold initializeProxies at h
  simp only at h
  split at h
  · cases h
  · rename_i hne
    split at h
    · cases h
    · rename_i rc1 hreg
      obtain ⟨h1, h2, -, -, h5, -⟩ := registerProxies_ok urlParse _ _ _ hreg
      simp only at h1 h2 h5
      split at h
      · cases h
      · rename_i E hE
        split at h
        · cases h
        · rename_i x hx
          simp only [Startup.ok.injEq] at h
          subst h
          simp only
          rw [h1] at hE hx
          refine ⟨h1, h2, ?_, ?_, ⟨E, hE, rfl⟩, ⟨x, hx, rfl⟩⟩
          · rw [h2]; intro e; apply hne; rw [e]; rfl
          · rw [h2]; exact h5

theorem scenarioController_ok :
    initializeProxies scenarioParse scenarioFloat (routerController.new scenarioConfig) =
      .ok scenarioController := by
  rfl

/-! ## Lemmas on the cache and on `getProxy` -/

theorem Cache.Get_eq_some {c : Cache} {k : String} {now : Int} {url : String} :
    c.Get k now = some url ↔
      ∃ it, c.items k = some it ∧ it.expiredAt (UnixNano now) = false ∧ it.Object = url := by
  unfold Cache.Get
  cases h : c.items k with
  | none => simp
  | some it =>
    cases he : it.expiredAt (UnixNano now) <;> simp [he]

theorem Cache.Get_eq_none {c : Cache} {k : String} {now : Int} :
    c.Get k now = none ↔
      c.items k = none ∨ ∃ it, c.items k = some it ∧ it.expiredAt (UnixNano now) = true := by
  unfold Cache.Get
  cases h : c.items k with
  | none => simp
  | some it =>
    cases he : it.expiredAt (UnixNano now) <;> simp [he]

theorem getProxy_hit {U F : Type} {rc : routerController U F} {c : Cache} {r : Request}
    {now : Int} {url : String} (draw : Nat) (hc : rc.requestCache = some c)
    (hget : c.Get (requestIdentifier r) now = some url) :
    getProxy rc r now draw = some (rc, rc.proxies url) := by
  simp [getProxy, hc, hget]

theorem getProxy_miss {U F : Type} {rc : routerController U F} {c : Cache} {r : Request}
    {now : Int} (draw : Nat) (hc : rc.requestCache = some c)
    (hget : c.Get (requestIdentifier r) now = none) (hne : rc.urls ≠ []) :
    ∃ u, rc.urls[draw % rc.urls.length]? = some u ∧ u ∈ rc.urls ∧
      getProxy rc r now draw =
        some ({ rc with
                requestCache := some (c.Set (requestIdentifier r) u DefaultExpiration now) },
              rc.proxies u) := by
  have hlen : 0 < rc.urls.length := List.length_pos.mpr hne
  have hlt : draw % rc.urls.length < rc.urls.length := Nat.mod_lt _ hlen
  refine ⟨rc.urls[draw % rc.urls.length], ?_, List.getElem_mem _, ?_⟩
  · exact List.getElem?_eq_getElem hlt
  · have hn : rc.urls.length ≠ 0 := Nat.pos_iff_ne_zero.mp hlen
    simp [getProxy, hc, hget, Intn, hn, List.getElem?_eq_getElem hlt]

theorem SameRegistry.refl {U F : Type} {rc : routerController U F} {c : Cache}
    (hc : rc.requestCache = some c) : SameRegistry rc rc :=
  ⟨rfl, rfl, rfl, rfl, c, c, hc, hc, rfl, rfl⟩

theorem step_preserves {U F : Type} (rc s : routerController U F) (e : Event)
    (hs : SameRegistry rc s) (hi : RegistryInv s) :
    SameRegistry rc (step s e) ∧ RegistryInv (step s e) := by
  obtain ⟨h1, h2, h3, h4, c0, c, hc0, hc, hd, hci⟩ := hs
  obtain ⟨hne, hp, c', hc', hv⟩ := hi
  have hcc : c' = c := by rw [hc] at hc'; exact (Option.some.inj hc').symm
  subst hcc
  cases e with
  | request r now draw =>
    simp only [step]
    cases hget : c'.Get (requestIdentifier r) now with
    | some url =>
      rw [getProxy_hit draw hc hget]
      exact ⟨⟨h1, h2, h3, h4, c0, c', hc0, hc, hd, hci⟩, hne, hp, c', hc, hv⟩
    | none =>
      obtain ⟨u, -, hu, hg⟩ := getProxy_miss draw hc hget hne
      rw [hg]
      refine ⟨⟨h1, h2, h3, h4, c0, _, hc0, rfl, hd, hci⟩, hne, hp, _, rfl, ?_⟩
      intro k it hk
      simp only [Cache.Set] at hk
      by_cases hkk : k = requestIdentifier r
      · simp only [hkk, if_true, Option.some.injEq] at hk
        rw [← hk]; exact hu
      · simp only [hkk, if_false] at hk
        exact hv k it hk
  | sweep now =>
    simp only [step, hc, Option.map_some']
    refine ⟨⟨h1, h2, h3, h4, c0, _, hc0, rfl, hd, hci⟩, hne, hp, _, rfl, ?_⟩
    intro k it hk
    simp only [Cache.DeleteExpired] at hk
    cases hik : c'.items k with
    | none => simp [hik] at hk
    | some it' =>
      simp only [hik] at hk
      split at hk
      · cases hk
      · simp only [Option.some.injEq] at hk
        rw [← hk]; exact hv k it' hik

theorem run_preserves {U F : Type} (rc : routerController U F) (events : List Event) :
    ∀ s, SameRegistry rc s → RegistryInv s →
      SameRegistry rc (run s events) ∧ RegistryInv (run s events) := by
  induction events with
  | nil => intro s hs hi; exact ⟨hs, hi⟩
  | cons e es ih =>
    intro s hs hi
    have h := step_preserves rc s e hs hi
    exact ih (step s e) h.1 h.2

theorem init_inv {U F : Type} (urlParse : String → Option U)
    (parseFloat : String → Option F) (rc0 rc : routerController U F)
    (h : initializeProxies urlParse parseFloat rc0 = .ok rc) :
    SameRegistry rc rc ∧ RegistryInv rc := by
  obtain ⟨-, -, hne, hp, ⟨E, -, hc⟩, -⟩ := initializeProxies_ok urlParse parseFloat rc0 rc h
  refine ⟨SameRegistry.refl hc, hne, ?_, _, hc, ?_⟩
  · intro u hu
    obtain ⟨url, -, hpu⟩ := hp u hu
    rw [hpu]; rfl
  · intro k it hk
    simp [Cache.New] at hk

theorem wrap64_of_fits (x : Int) (h1 : -(2 ^ 63) ≤ x) (h2 : x < 2 ^ 63) : wrap64 x = x := by
  unfold wrap64
  norm_num at h1 h2 ⊢
  omega

theorem UnixNano_of_fits (t : Int) (h1 : -(2 ^ 63) ≤ t) (h2 : t < 2 ^ 63) : UnixNano t = t := by
  unfold UnixNano
  norm_num at h1 h2 ⊢
  omega

/-- An item written with a positive duration `d` at instant `now` has not expired at
any instant up to `now + d`. -/
theorem written_item_live (u : String) (now d t : Int) (hd : 0 < d) (hd' : d < 2 ^ 63)
    (ht : t ≤ now + d) :
    (⟨u, wrap64 (UnixNano now + d)⟩ : Item).expiredAt (UnixNano t) = false := by
  simp only [Item.expiredAt, Bool.and_eq_false_imp, decide_eq_true_eq, decide_eq_false_iff_not]
  unfold wrap64 UnixNano
  norm_num at hd' ⊢
  omega

/-- An item written without expiration never expires. -/
theorem unexpiring_item_live (u : String) (t : Int) :
    (⟨u, 0⟩ : Item).expiredAt t = false := by
  simp [Item.expiredAt]

/-! ## C7: a cache hit never writes -/

/-- C7: when the fingerprint of a request has a live cache entry, `getProxy` returns
the proxy registered for the cached URL and leaves the controller, hence the whole
selection cache with every stored backend and expiration, unchanged; and no call of
`getProxy` at that instant, for whatever request and draw, changes that live entry. -/
theorem cache_hit_never_writes {U F : Type} (rc : routerController U F) (cache : Cache)
    (r : Request) (now : Int) (url : String)
    (hc : rc.requestCache = some cache)
    (hlive : cache.Get (requestIdentifier r) now = some url) :
    (∀ draw, getProxy rc r now draw = some (rc, rc.proxies url)) ∧
    (∀ (r' : Request) (draw : Nat) (rc' : routerController U F)
        (p : Option (ReverseProxy U)),
        getProxy rc r' now draw = some (rc', p) →
        ∃ c', rc'.requestCache = some c' ∧
          c'.items (requestIdentifier r) = cache.items (requestIdentifier r)) := by
  refine ⟨fun draw => getProxy_hit draw hc hlive, ?_⟩
  intro r' draw rc' p hg
  cases hget : cache.Get (requestIdentifier r') now with
  | some url' =>
    rw [getProxy_hit draw hc hget] at hg
    simp only [Option.some.injEq, Prod.mk.injEq] at hg
    rw [← hg.1]
    exact ⟨cache, hc, rfl⟩
  | none =>
    have hk : requestIdentifier r ≠ requestIdentifier r' := by
      intro e
      rw [e, hget] at hlive
      cases hlive
    simp only [getProxy, hc, hget] at hg
    split at hg
    · cases hg
    · split at hg
      · cases hg
      · simp only [Option.some.injEq, Prod.mk.injEq] at hg
        rw [← hg.1]
        refine ⟨_, rfl, ?_⟩
        simp [Cache.Set, hk]

/-- C7 at the scenario: after the first request was routed to `b1` at instant `0`, the
same request at `4 s` hits, returns the proxy of `b1` and leaves the controller as it is. -/
theorem cache_hit_never_writes_witness :
    (run scenarioController [.request scenarioRequest 0 0]).requestCache =
        some scenarioCacheAfterFirst ∧
    scenarioCacheAfterFirst.Get (requestIdentifier scenarioRequest) (4 * Second) =
        some "http://b1:9000" ∧
    ∀ draw, getProxy (run scenarioController [.request scenarioRequest 0 0])
        scenarioRequest (4 * Second) draw =
      some (run scenarioController [.request scenarioRequest 0 0],
            (run scenarioController [.request scenarioRequest 0 0]).proxies "http://b1:9000") :=
  ⟨rfl, by decide,
   (cache_hit_never_writes (run scenarioController [.request scenarioRequest 0 0])
      scenarioCacheAfterFirst scenarioRequest (4 * Second) "http://b1:9000" rfl
      (by decide)).1⟩

/-! ## C6: selection on a miss -/

theorem wrap64_lt (x : Int) : wrap64 x < 2 ^ 63 := by
  unfold wrap64
  norm_num
  omega

/-- The default expiration of the cache in a state reached from a successful
`initializeProxies`: the wrapped duration of `CacheExpiry` seconds, `-1` when that is
zero; in either case below `2^63`. -/
theorem reachable_default {U F : Type} (urlParse : String → Option U)
    (parseFloat : String → Option F) (rc0 rc : routerController U F)
    (hinit : initializeProxies urlParse parseFloat rc0 = .ok rc)
    (events : List Event) (cache : Cache)
    (hc : (run rc events).requestCache = some cache) :
    cache.defaultExpiration < 2 ^ 63 ∧
    ∀ E, Atoi rc0.config.CacheExpiry = some E →
      cache.defaultExpiration =
        if wrap64 (E * Second) = 0 then -1 else wrap64 (E * Second) := by
  obtain ⟨-, -, -, -, ⟨E0, hE0, hc0⟩, -⟩ :=
    initializeProxies_ok urlParse parseFloat rc0 rc hinit
  obtain ⟨hsame, hinv⟩ := init_inv urlParse parseFloat rc0 rc hinit
  obtain ⟨⟨-, -, -, -, c0, c', hcc0, hcc', hd, -⟩, -⟩ := run_preserves rc events rc hsame hinv
  have hc'eq : c' = cache := by rw [hc] at hcc'; exact (Option.some.inj hcc').symm
  subst hc'eq
  have hc0eq : c0 = Cache.New (wrap64 (E0 * Second)) (10 * Minute) := by
    rw [hc0] at hcc0; exact (Option.some.inj hcc0).symm
  have hdef : c'.defaultExpiration =
      if wrap64 (E0 * Second) = 0 then -1 else wrap64 (E0 * Second) := by
    rw [hd, hc0eq]; rfl
  refine ⟨?_, ?_⟩
  · rw [hdef]
    have := wrap64_lt (E0 * Second)
    split
    · norm_num
    · exact this
  · intro E hE
    have hEE : E0 = E := by rw [hE0] at hE; exact Option.some.inj hE
    subst hEE
    exact hdef

/-- C6 (amended): in every state reached from a successful `initializeProxies`, for a
request whose fingerprint has no live cache entry (absent or expired), (1) whatever the
random draw, `getProxy` picks a URL of the configured list, stores it in the cache under
the fingerprint and returns the proxy registered for that URL, which exists; (2) every
configured URL is picked under some draw; (3) the stored item sits under
`path + "-" + rawQuery`, replaces whatever was there, no other key changes, and it
carries the cache's default expiration: for a positive `CacheExpiry` of `E` seconds
whose duration and expiration instant fit in 64 bits it expires `E` seconds after the
write (it is served up to that instant and not after); for a `CacheExpiry` that is zero
or negative it never expires. -/
theorem selection_on_miss {U F : Type} (urlParse : String → Option U)
    (parseFloat : String → Option F) (rc0 rc : routerController U F)
    (hinit : initializeProxies urlParse parseFloat rc0 = .ok rc)
    (events : List Event) (r : Request) (now : Int) (cache : Cache)
    (hc : (run rc events).requestCache = some cache)
    (hmiss : cache.Get (requestIdentifier r) now = none) :
    (∀ draw, ∃ u url, u ∈ rc0.config.SubServices ∧
        getProxy (run rc events) r now draw =
          some ({ run rc events with
                  requestCache := some (cache.Set (requestIdentifier r) u DefaultExpiration now) },
                (run rc events).proxies u) ∧
        urlParse u = some url ∧ (run rc events).proxies u = some ⟨url, true⟩) ∧
    (∀ u ∈ rc0.config.SubServices, ∃ draw,
        getProxy (run rc events) r now draw =
          some ({ run rc events with
                  requestCache := some (cache.Set (requestIdentifier r) u DefaultExpiration now) },
                (run rc events).proxies u)) ∧
    (∀ u E, Atoi rc0.config.CacheExpiry = some E →
        (cache.Set (requestIdentifier r) u DefaultExpiration now).items
            (r.Path ++ "-" ++ r.RawQuery) =
          some ⟨u, if 0 < wrap64 (E * Second)
                   then wrap64 (UnixNano now + wrap64 (E * Second)) else 0⟩ ∧
        (0 < E → E * Second < 2 ^ 63 → 0 ≤ now → now + E * Second < 2 ^ 63 →
          (cache.Set (requestIdentifier r) u DefaultExpiration now).items
              (r.Path ++ "-" ++ r.RawQuery) = some ⟨u, now + E * Second⟩ ∧
          ∀ t, -(2 ^ 63) ≤ t → t < 2 ^ 63 →
            ((cache.Set (requestIdentifier r) u DefaultExpiration now).Get
                (r.Path ++ "-" ++ r.RawQuery) t = some u ↔ t ≤ now + E * Second)) ∧
        (E ≤ 0 → -(2 ^ 63) ≤ E * Second →
          (cache.Set (requestIdentifier r) u DefaultExpiration now).items
              (r.Path ++ "-" ++ r.RawQuery) = some ⟨u, 0⟩ ∧
          ∀ t, (cache.Set (requestIdentifier r) u DefaultExpiration now).Get
                (r.Path ++ "-" ++ r.RawQuery) t = some u) ∧
        ∀ k, k ≠ r.Path ++ "-" ++ r.RawQuery →
          (cache.Set (requestIdentifier r) u DefaultExpiration now).items k = cache.items k) := by
  obtain ⟨hcfg, hurls, hne, hp, -, -⟩ :=
    initializeProxies_ok urlParse parseFloat rc0 rc hinit
  obtain ⟨hsame, hinv⟩ := init_inv urlParse parseFloat rc0 rc hinit
  obtain ⟨⟨-, hu, hpx, -, -⟩, hne', -, -⟩ := run_preserves rc events rc hsame hinv
  obtain ⟨-, hdefE⟩ := reachable_default urlParse parseFloat rc0 rc hinit events cache hc
  refine ⟨?_, ?_, ?_⟩
  · intro draw
    obtain ⟨u, -, hmem, hg⟩ := getProxy_miss draw hc hmiss hne'
    rw [hu] at hmem
    obtain ⟨url, hurl, hpu⟩ := hp u hmem
    refine ⟨u, url, hurls ▸ hmem, hg, hurl, ?_⟩
    rw [hpx]; exact hpu
  · intro u hmem
    rw [← hurls, ← hu] at hmem
    obtain ⟨i, hi, hiu⟩ := List.getElem_of_mem hmem
    obtain ⟨u', hget, -, hg⟩ := getProxy_miss i hc hmiss hne'
    rw [Nat.mod_eq_of_lt hi, List.getElem?_eq_getElem hi, hiu] at hget
    have : u' = u := (Option.some.inj hget).symm
    subst this
    exact ⟨i, hg⟩
  · intro u E hE
    have hdef := hdefE E hE
    have hitem : (cache.Set (requestIdentifier r) u DefaultExpiration now).items
        (r.Path ++ "-" ++ r.RawQuery) =
        some ⟨u, if 0 < wrap64 (E * Second)
                 then wrap64 (UnixNano now + wrap64 (E * Second)) else 0⟩ := by
      simp only [Cache.Set, requestIdentifier, DefaultExpiration, if_true, hdef]
      by_cases hz : wrap64 (E * Second) = 0
      · simp [hz]
      · simp [hz]
    have hgetiff : ∀ (it : Item) (t : Int),
        (cache.Set (requestIdentifier r) u DefaultExpiration now).items
          (r.Path ++ "-" ++ r.RawQuery) = some it → it.Object = u →
        ((cache.Set (requestIdentifier r) u DefaultExpiration now).Get
          (r.Path ++ "-" ++ r.RawQuery) t = some u ↔ it.expiredAt (UnixNano t) = false) := by
      intro it t hit hobj
      constructor
      · intro hg
        obtain ⟨it', hit', hlive, -⟩ := Cache.Get_eq_some.mp hg
        rw [hit] at hit'
        rw [Option.some.inj hit']; exact hlive
      · intro hlive
        exact Cache.Get_eq_some.mpr ⟨it, hit, hlive, hobj⟩
    refine ⟨hitem, ?_, ?_, ?_⟩
    · intro hpos hfit hnow hsum
      have hpos' : 0 < E * Second := by unfold Second; omega
      have hw : wrap64 (E * Second) = E * Second := by
        apply wrap64_of_fits _ _ hfit
        have h63 : (0 : Int) < 2 ^ 63 := by norm_num
        omega
      have hn : UnixNano now = now := by
        apply UnixNano_of_fits
        · have h63 : (0 : Int) < 2 ^ 63 := by norm_num
          omega
        · omega
      have hw2 : wrap64 (now + E * Second) = now + E * Second := by
        apply wrap64_of_fits _ _ hsum
        have h63 : (0 : Int) < 2 ^ 63 := by norm_num
        omega
      have hitem' : (cache.Set (requestIdentifier r) u DefaultExpiration now).items
          (r.Path ++ "-" ++ r.RawQuery) = some ⟨u, now + E * Second⟩ := by
        rw [hitem, hw, hn, hw2]
        simp [hpos']
      refine ⟨hitem', ?_⟩
      intro t ht1 ht2
      rw [hgetiff _ t hitem' rfl, UnixNano_of_fits t ht1 ht2]
      simp only [Item.expiredAt, Bool.and_eq_false_imp, decide_eq_true_eq,
        decide_eq_false_iff_not]
      constructor
      · intro h
        have := h (by omega)
        omega
      · intro h _
        omega
    · intro hneg hfit
      have hw : wrap64 (E * Second) = E * Second := by
        apply wrap64_of_fits _ hfit
        have h63 : (0 : Int) < 2 ^ 63 := by norm_num
        have : E * Second ≤ 0 := by unfold Second; omega
        omega
      have hnp : ¬ 0 < E * Second := by unfold Second; omega
      have hitem' : (cache.Set (requestIdentifier r) u DefaultExpiration now).items
          (r.Path ++ "-" ++ r.RawQuery) = some ⟨u, 0⟩ := by
        rw [hitem, hw]
        simp [hnp]
      refine ⟨hitem', ?_⟩
      intro t
      rw [hgetiff _ t hitem' rfl]
      exact unexpiring_item_live u _
    · intro k hk
      simp [Cache.Set, requestIdentifier, hk]

/-- C6 (amended) at the scenario: on the empty cache both configured backends are
chosen under some draw and written under the fingerprint of the request. -/
theorem selection_on_miss_witness :
    (run scenarioController []).requestCache =
        some (Cache.New (wrap64 (5 * Second)) (10 * Minute)) ∧
    (Cache.New (wrap64 (5 * Second)) (10 * Minute)).Get
        (requestIdentifier scenarioRequest) 0 = none ∧
    ∀ u ∈ scenarioConfig.SubServices, ∃ draw,
      getProxy (run scenarioController []) scenarioRequest 0 draw =
        some ({ run scenarioController [] with
                requestCache := some ((Cache.New (wrap64 (5 * Second)) (10 * Minute)).Set
                  (requestIdentifier scenarioRequest) u DefaultExpiration 0) },
              (run scenarioController []).proxies u) :=
  ⟨rfl, by decide,
   (selection_on_miss scenarioParse scenarioFloat (routerController.new scenarioConfig)
      scenarioController scenarioController_ok [] scenarioRequest 0
      (Cache.New (wrap64 (5 * Second)) (10 * Minute)) rfl (by decide)).2.1⟩

/-- C6 (as stated, refuted): with `CacheExpiry = "0"` the entry written on a miss does
not carry the configured expiry of zero seconds: go-cache stores it without expiration
(`Expiration = 0`), and a million seconds later the same request is still served from
it, under a draw that would pick the other backend on a miss. -/
theorem zero_expiry_entry_never_expires :
    initializeProxies scenarioParse scenarioFloat (routerController.new zeroExpiryConfig) =
        .ok zeroExpiryController ∧
    Atoi zeroExpiryConfig.CacheExpiry = some 0 ∧
    routed zeroExpiryController scenarioRequest Second 0 = some ⟨"http://b1:9000", true⟩ ∧
    ((run zeroExpiryController [.request scenarioRequest Second 0]).requestCache.bind
        (fun c => c.items (requestIdentifier scenarioRequest))) =
      some ⟨"http://b1:9000", 0⟩ ∧
    routed (run zeroExpiryController [.request scenarioRequest Second 0])
        scenarioRequest (1000000 * Second) 1 = some ⟨"http://b1:9000", true⟩ := by
  refine ⟨rfl, by decide, by decide, by decide, by decide⟩

/-! ## C10: `getProxy` is safe on every reachable state -/

/-- C10: for a registry built by a successful `initializeProxies`, the invariant
`RegistryInv` (non-empty URL list, every stored cache value a configured URL, every
configured URL a key of the proxy map) holds initially and after any sequence of
requests and sweeps; in such a state, for every request, instant and draw, the index
drawn is within the bounds of the URL list, `getProxy` does not panic and returns an
existing proxy, the one built for a configured backend URL, and the invariant holds
again afterwards. -/
theorem getProxy_safe_on_reachable {U F : Type} (urlParse : String → Option U)
    (parseFloat : String → Option F) (rc0 rc : routerController U F)
    (hinit : initializeProxies urlParse parseFloat rc0 = .ok rc)
    (events : List Event) (r : Request) (now : Int) (draw : Nat) :
    RegistryInv rc ∧ RegistryInv (run rc events) ∧
    (∃ i, Intn (run rc events).urls.length draw = some i ∧ i < (run rc events).urls.length) ∧
    ∃ rc' proxy u url, getProxy (run rc events) r now draw = some (rc', some proxy) ∧
      u ∈ rc0.config.SubServices ∧ urlParse u = some url ∧ proxy = ⟨url, true⟩ ∧
      (run rc events).proxies u = some proxy ∧ RegistryInv rc' := by
  obtain ⟨hcfg, hurls, hne, hp, -, -⟩ := initializeProxies_ok urlParse parseFloat rc0 rc hinit
  obtain ⟨hsame, hinv⟩ := init_inv urlParse parseFloat rc0 rc hinit
  obtain ⟨hsame', hinv'⟩ := run_preserves rc events rc hsame hinv
  have hstep := step_preserves rc (run rc events) (.request r now draw) hsame' hinv'
  obtain ⟨-, hu, hpx, -, -, c, -, hc, -, -⟩ := hsame'
  obtain ⟨hne', -, c2, hc2, hv⟩ := hinv'
  have hceq : c2 = c := by rw [hc] at hc2; exact (Option.some.inj hc2).symm
  subst hceq
  have hlen : 0 < (run rc events).urls.length := List.length_pos.mpr hne'
  refine ⟨hinv, ⟨hne', (init_inv urlParse parseFloat rc0 rc hinit).2.2.1 |> fun h => by
      intro u hu'; rw [hpx]; exact h u (hu ▸ hu'), c2, hc, hv⟩, ?_, ?_⟩
  · refine ⟨draw % (run rc events).urls.length, ?_, Nat.mod_lt _ hlen⟩
    simp [Intn, Nat.pos_iff_ne_zero.mp hlen]
  · cases hget : c2.Get (requestIdentifier r) now with
    | some url =>
      obtain ⟨it, hit, -, hobj⟩ := Cache.Get_eq_some.mp hget
      have hmem : url ∈ rc.urls := by rw [← hu, ← hobj]; exact hv _ it hit
      obtain ⟨pu, hpu, hpp⟩ := hp url hmem
      have hg : getProxy (run rc events) r now draw = some (run rc events, (run rc events).proxies url) :=
        getProxy_hit draw hc hget
      simp only [step, hg] at hstep
      refine ⟨_, ⟨pu, true⟩, url, pu, ?_, hurls ▸ hmem, hpu, rfl, ?_, hstep.2⟩
      · rw [hg, hpx, hpp]
      · rw [hpx, hpp]
    | none =>
      obtain ⟨u, -, hmem, hg⟩ := getProxy_miss draw hc hget hne'
      rw [hu] at hmem
      obtain ⟨pu, hpu, hpp⟩ := hp u hmem
      simp only [step, hg] at hstep
      refine ⟨_, ⟨pu, true⟩, u, pu, ?_, hurls ▸ hmem, hpu, rfl, ?_, hstep.2⟩
      · rw [hg, hpx, hpp]
      · rw [hpx, hpp]

/-- C10 at the scenario: after a request and a sweep the index drawn for draw `3` is
within the bounds of the URL list. -/
theorem getProxy_safe_on_reachable_witness :
    initializeProxies scenarioParse scenarioFloat (routerController.new scenarioConfig) =
        .ok scenarioController ∧
    ∃ i, Intn (run scenarioController [.request scenarioRequest 0 0,
                 .sweep (7 * Second)]).urls.length 3 = some i ∧
         i < (run scenarioController [.request scenarioRequest 0 0,
                 .sweep (7 * Second)]).urls.length :=
  ⟨scenarioController_ok,
   (getProxy_safe_on_reachable scenarioParse scenarioFloat
      (routerController.new scenarioConfig) scenarioController scenarioController_ok
      [.request scenarioRequest 0 0, .sweep (7 * Second)] scenarioRequest (8 * Second) 3).2.2.1⟩

/-! ## C8: start-up is fatal on broken configuration -/

/-- C8: `initializeProxies` ends in `logger.Fatal` exactly when the configured backend
list is empty, or some configured URL fails to parse, or `CacheExpiry` is not an
integer for `strconv.Atoi`, or `PerRequestLimit` is not a float for
`strconv.ParseFloat`; otherwise it returns a controller. On an empty list it stops at
the first check with the controller untouched: for the freshly allocated controller
no proxy, no cache and no limiter exists at that point. -/
theorem startup_fatal_iff {U F : Type} (urlParse : String → Option U)
    (parseFloat : String → Option F) (rc : routerController U F) :
    ((∃ msg rc', initializeProxies urlParse parseFloat rc = .fatal msg rc') ↔
      (rc.config.SubServices = [] ∨ (∃ u ∈ rc.config.SubServices, urlParse u = none) ∨
        Atoi rc.config.CacheExpiry = none ∨ parseFloat rc.config.PerRequestLimit = none)) ∧
    ((∃ rc', initializeProxies urlParse parseFloat rc = .ok rc') ↔
      ¬ (rc.config.SubServices = [] ∨ (∃ u ∈ rc.config.SubServices, urlParse u = none) ∨
        Atoi rc.config.CacheExpiry = none ∨ parseFloat rc.config.PerRequestLimit = none)) ∧
    (rc.config.SubServices = [] →
      initializeProxies urlParse parseFloat rc = .fatal "Error: SUB_SERVICES not set" rc) ∧
    (∀ cfg : Config, cfg.SubServices = [] →
      ∃ rc', initializeProxies urlParse parseFloat (routerController.new cfg) =
          .fatal "Error: SUB_SERVICES not set" rc' ∧
        rc'.requestCache = none ∧ rc'.rateLimiter = none ∧ rc'.urls = [] ∧
        ∀ k, rc'.proxies k = none) := by
  have hfatal : (∃ msg rc', initializeProxies urlParse parseFloat rc = .fatal msg rc') ↔
      (rc.config.SubServices = [] ∨ (∃ u ∈ rc.config.SubServices, urlParse u = none) ∨
        Atoi rc.config.CacheExpiry = none ∨ parseFloat rc.config.PerRequestLimit = none) := by
    unfold initializeProxies
    simp only
    by_cases hl : rc.config.SubServices = []
    · simp [hl]
    · have hlen : ¬ rc.config.SubServices.length = 0 := by
        intro h; exact hl (List.length_eq_zero.mp h)
      simp only [hlen, if_false, hl, false_or]
      cases hreg : registerProxies urlParse rc.config.SubServices
          { rc with urls := rc.config.SubServices } with
      | fatal msg rc1 =>
        have := (registerProxies_fatal_iff urlParse rc.config.SubServices
          { rc with urls := rc.config.SubServices }).mp ⟨msg, rc1, hreg⟩
        simp only [this, true_or, iff_true]
        exact ⟨_, _, rfl⟩
      | ok rc1 =>
        have hno : ¬ ∃ u ∈ rc.config.SubServices, urlParse u = none := by
          intro h
          obtain ⟨msg, rc2, h2⟩ := (registerProxies_fatal_iff urlParse rc.config.SubServices
            { rc with urls := rc.config.SubServices }).mpr h
          rw [hreg] at h2; cases h2
        obtain ⟨hcfg, -⟩ := registerProxies_ok urlParse _ _ _ hreg
        simp only at hcfg
        simp only [hno, false_or, hcfg]
        cases hA : Atoi rc.config.CacheExpiry with
        | none => simp
        | some E =>
          simp only [hcfg]
          cases hP : parseFloat rc.config.PerRequestLimit with
          | none => simp
          | some x => simp
  have hdich : ∀ s : Startup (routerController U F),
      (∃ rc', s = .ok rc') ↔ ¬ ∃ msg rc', s = .fatal msg rc' := by
    intro s
    cases s with
    | ok rc' => simp
    | fatal msg rc' => simp
  refine ⟨hfatal, ?_, ?_, ?_⟩
  · rw [hdich, hfatal]
  · intro hl
    simp [initializeProxies, hl]
  · intro cfg hl
    refine ⟨routerController.new cfg, ?_, rfl, rfl, rfl, fun _ => rfl⟩
    simp [initializeProxies, routerController.new, hl]

/-! ## C3: a rate-limit rejection short-circuits -/

/-- C3: in every state reached from a successful `initializeProxies`, when the
handler's limiter rejects the client IP key, `handleProxyRequest` answers with status
429 and the JSON body whose message is "You have reached the request limit.", and does
nothing else: the only step run is the limiter check (no normalization, no backend
selection, no forward), the request path is not rewritten, nothing is logged, and the
controller with its selection cache is unchanged. -/
theorem rate_limit_rejection_short_circuits {U F : Type} (urlParse : String → Option U)
    (parseFloat : String → Option F) (rc0 rc : routerController U F)
    (hinit : initializeProxies urlParse parseFloat rc0 = .ok rc)
    (events : List Event) (c : Request) (o : Oracle) (hrej : o.limitReached = true) :
    (handleProxyRequest (run rc events) c o).outcome =
      some (.reply { status := 429, headers := [],
                     body := [("message", "You have reached the request limit.")] }) ∧
    (handleProxyRequest (run rc events) c o).trace = [Stage.limitByKeys] ∧
    (handleProxyRequest (run rc events) c o).request = c ∧
    (handleProxyRequest (run rc events) c o).log = none ∧
    (handleProxyRequest (run rc events) c o).rc = run rc events := by
  obtain ⟨-, -, -, -, -, ⟨x, -, hl⟩⟩ := initializeProxies_ok urlParse parseFloat rc0 rc hinit
  obtain ⟨hsame, hinv⟩ := init_inv urlParse parseFloat rc0 rc hinit
  obtain ⟨⟨-, -, -, hlim, -⟩, -⟩ := run_preserves rc events rc hsame hinv
  rw [hl] at hlim
  simp [handleProxyRequest, hlim, LimitByKeys, hrej, NewLimiter, Limiter.SetMessage, Reply.JSON]

/-- C3 at the scenario: a rejected `GET /api/foo?x=1` is answered 429 with the fixed
message. -/
theorem rate_limit_rejection_short_circuits_witness :
    (handleProxyRequest (run scenarioController [.request scenarioRequest 0 0])
        { scenarioRequest with Path := "/api/foo" }
        { limitReached := true, now := Second, draw := 1, syslogDial := true }).outcome =
      some (.reply { status := 429, headers := [],
                     body := [("message", "You have reached the request limit.")] }) :=
  (rate_limit_rejection_short_circuits scenarioParse scenarioFloat
    (routerController.new scenarioConfig) scenarioController scenarioController_ok
    [.request scenarioRequest 0 0] { scenarioRequest with Path := "/api/foo" }
    { limitReached := true, now := Second, draw := 1, syslogDial := true } rfl).1

/-! ## C1: stickiness -/

/-- The entry written on a miss stays in the cache, untouched, through every request
and sweep that happens before it expires. -/
theorem entry_survives {U F : Type} (rc : routerController U F) (key u : String)
    (exp bound : Int)
    (hlive : ∀ t, t ≤ bound → (⟨u, exp⟩ : Item).expiredAt (UnixNano t) = false) :
    ∀ (mid : List Event) (s : routerController U F),
      SameRegistry rc s → RegistryInv s →
      (∃ c, s.requestCache = some c ∧ c.items key = some ⟨u, exp⟩) →
      (∀ e ∈ mid, e.time ≤ bound) →
      ∃ c, (run s mid).requestCache = some c ∧ c.items key = some ⟨u, exp⟩ := by
  intro mid
  induction mid with
  | nil => intro s _ _ h _; exact h
  | cons e es ih =>
    intro s hs hi hent htime
    have hpres := step_preserves rc s e hs hi
    have hte : e.time ≤ bound := htime e (List.mem_cons_self _ _)
    have htes : ∀ e' ∈ es, e'.time ≤ bound := fun e' he' => htime e' (List.mem_cons_of_mem _ he')
    refine ih (step s e) hpres.1 hpres.2 ?_ htes
    obtain ⟨c, hc, hitem⟩ := hent
    have hl := hlive e.time hte
    cases e with
    | request r now draw =>
      simp only [Event.time] at hl
      simp only [step]
      cases hget : c.Get (requestIdentifier r) now with
      | some url =>
        rw [getProxy_hit draw hc hget]
        exact ⟨c, hc, hitem⟩
      | none =>
        obtain ⟨u', -, -, hg⟩ := getProxy_miss draw hc hget hi.1
        rw [hg]
        refine ⟨_, rfl, ?_⟩
        have hk : key ≠ requestIdentifier r := by
          intro e
          rcases Cache.Get_eq_none.mp hget with h | ⟨it, h1, h2⟩
          · rw [← e, hitem] at h; cases h
          · rw [← e, hitem] at h1
            have : it = ⟨u, exp⟩ := (Option.some.inj h1).symm
            rw [this, hl] at h2; cases h2
        simp [Cache.Set, hk, hitem]
    | sweep now =>
      simp only [Event.time] at hl
      simp only [step, hc, Option.map_some']
      refine ⟨_, rfl, ?_⟩
      simp [Cache.DeleteExpired, hitem, hl]

/-- C1 (amended): for a registry built by a successful `initializeProxies` with a
positive `CacheExpiry` of `E` seconds whose duration fits in 64 bits, if a request
with normalized path `p` and raw query `q` misses the cache at instant `t1` and is
routed to backend `b`, then every later request with the same path and query handled
by `getProxy` at an instant `t2 < t1 + E` is routed to the same backend `b`, whatever
requests and sweeps are handled in between (none of them later than `t2`). -/
theorem stickiness_after_miss {U F : Type} (urlParse : String → Option U)
    (parseFloat : String → Option F) (rc0 rc : routerController U F)
    (hinit : initializeProxies urlParse parseFloat rc0 = .ok rc)
    (E : Int) (hE : Atoi rc0.config.CacheExpiry = some E) (hpos : 0 < E)
    (hfit : E * Second < 2 ^ 63)
    (earlier between : List Event) (r1 r2 : Request) (t1 t2 : Int) (d1 d2 : Nat)
    (hpath : r2.Path = r1.Path) (hquery : r2.RawQuery = r1.RawQuery)
    (cache : Cache) (hc : (run rc earlier).requestCache = some cache)
    (hmiss : cache.Get (requestIdentifier r1) t1 = none)
    (hbetween : ∀ e ∈ between, e.time ≤ t2) (hwindow : t2 < t1 + E * Second) :
    ∃ b, routed (run rc earlier) r1 t1 d1 = some b ∧
      routed (run (run rc earlier) (Event.request r1 t1 d1 :: between)) r2 t2 d2 = some b := by
  obtain ⟨-, -, -, hp, ⟨E0, hE0, hc0⟩, -⟩ :=
    initializeProxies_ok urlParse parseFloat rc0 rc hinit
  have hEE : E0 = E := by rw [hE0] at hE; exact Option.some.inj hE
  subst hEE
  have hpos' : 0 < E0 * Second := by unfold Second; omega
  have hw : wrap64 (E0 * Second) = E0 * Second := by
    apply wrap64_of_fits _ _ hfit
    have h63 : (0 : Int) < 2 ^ 63 := by norm_num
    omega
  obtain ⟨hsame, hinv⟩ := init_inv urlParse parseFloat rc0 rc hinit
  obtain ⟨hsame1, hinv1⟩ := run_preserves rc earlier rc hsame hinv
  obtain ⟨u, -, hmem, hg⟩ := getProxy_miss d1 hc hmiss hinv1.1
  obtain ⟨url, -, hpu0⟩ := hp u (hsame1.2.1 ▸ hmem)
  have hpu : (run rc earlier).proxies u = some ⟨url, true⟩ := by
    rw [hsame1.2.2.1]; exact hpu0
  have hdef : cache.defaultExpiration = E0 * Second := by
    obtain ⟨-, -, -, -, c0, c', hcc0, hcc', hd, -⟩ := hsame1
    have h1 : c' = cache := by rw [hc] at hcc'; exact (Option.some.inj hcc').symm
    have h2 : c0 = Cache.New (wrap64 (E0 * Second)) (10 * Minute) := by
      rw [hc0] at hcc0; exact (Option.some.inj hcc0).symm
    rw [← h1, hd, h2]
    simp only [Cache.New, hw]
    have : ¬ E0 * Second = 0 := by omega
    simp [this]
  have hit' : (cache.Set (requestIdentifier r1) u DefaultExpiration t1).items
      (requestIdentifier r1) = some ⟨u, wrap64 (UnixNano t1 + E0 * Second)⟩ := by
    simp [Cache.Set, DefaultExpiration, hdef, hpos']
  have hlive : ∀ t, t ≤ t2 →
      (⟨u, wrap64 (UnixNano t1 + E0 * Second)⟩ : Item).expiredAt (UnixNano t) = false :=
    fun t ht => written_item_live u t1 (E0 * Second) t hpos' hfit (by omega)
  have hstep := step_preserves rc (run rc earlier) (.request r1 t1 d1) hsame1 hinv1
  have hstepeq : step (run rc earlier) (.request r1 t1 d1) =
      { run rc earlier with
        requestCache := some (cache.Set (requestIdentifier r1) u DefaultExpiration t1) } := by
    simp only [step, hg]
  have hent : ∃ c, (step (run rc earlier) (.request r1 t1 d1)).requestCache = some c ∧
      c.items (requestIdentifier r1) = some ⟨u, wrap64 (UnixNano t1 + E0 * Second)⟩ := by
    rw [hstepeq]
    exact ⟨_, rfl, hit'⟩
  obtain ⟨c2, hc2, hitem2⟩ := entry_survives rc (requestIdentifier r1) u
    (wrap64 (UnixNano t1 + E0 * Second)) t2 hlive between _ hstep.1 hstep.2 hent hbetween
  obtain ⟨hsame2, -⟩ := run_preserves rc between _ hstep.1 hstep.2
  have hkey : requestIdentifier r2 = requestIdentifier r1 := by
    simp [requestIdentifier, hpath, hquery]
  have hget2 : c2.Get (requestIdentifier r2) t2 = some u := by
    rw [hkey]
    apply Cache.Get_eq_some.mpr
    exact ⟨_, hitem2, hlive t2 (le_refl _), rfl⟩
  have hrun : run (run rc earlier) (Event.request r1 t1 d1 :: between) =
      run (step (run rc earlier) (.request r1 t1 d1)) between := rfl
  refine ⟨⟨url, true⟩, ?_, ?_⟩
  · simp only [routed, hg, hpu]
  · rw [hrun]
    simp only [routed, getProxy_hit d2 hc2 hget2]
    rw [hsame2.2.2.1, ← hsame1.2.2.1]
    exact hpu

/-- C1 (amended) at the scenario: the request misses at instant `0`; after a sweep and a
request with another query, the same request at `2 s` goes to the same backend. -/
theorem stickiness_after_miss_witness :
    Atoi scenarioConfig.CacheExpiry = some 5 ∧
    (Cache.New (wrap64 (5 * Second)) (10 * Minute)).Get
        (requestIdentifier scenarioRequest) 0 = none ∧
    (2 * Second < 0 + 5 * Second) ∧
    ∃ b, routed (run scenarioController []) scenarioRequest 0 1 = some b ∧
      routed (run (run scenarioController [])
        [.request scenarioRequest 0 1, .sweep Second,
         .request { scenarioRequest with RawQuery := "x=2" } Second 0])
        scenarioRequest (2 * Second) 0 = some b :=
  ⟨by decide, by decide, by decide,
   stickiness_after_miss scenarioParse scenarioFloat (routerController.new scenarioConfig)
     scenarioController scenarioController_ok 5 (by decide) (by decide) (by decide)
     [] [.sweep Second, .request { scenarioRequest with RawQuery := "x=2" } Second 0]
     scenarioRequest scenarioRequest 0 (2 * Second) 1 0 rfl rfl
     (Cache.New (wrap64 (5 * Second)) (10 * Minute)) rfl (by decide) (by decide) (by decide)⟩

/-- C1 (as stated, refuted): in the scenario (two backends, expiry 5 s) a request is
routed to `b1` at `t = 0` (a miss) and again to `b1` at `t1 = 4 s` (a hit, which does
not renew the entry); the same request at `t2 = 6 s`, inside the window
`t1 ≤ t2 < t1 + 5 s` counted from the request at `t1`, finds the entry expired and is
routed to `b2`. -/
theorem stickiness_window_not_renewed_by_hit :
    initializeProxies scenarioParse scenarioFloat (routerController.new scenarioConfig) =
        .ok scenarioController ∧
    Atoi scenarioConfig.CacheExpiry = some 5 ∧
    routed (run scenarioController [.request scenarioRequest 0 0])
        scenarioRequest (4 * Second) 1 = some ⟨"http://b1:9000", true⟩ ∧
    (4 * Second ≤ 6 * Second ∧ 6 * Second < 4 * Second + 5 * Second) ∧
    routed (run scenarioController
          [.request scenarioRequest 0 0, .request scenarioRequest (4 * Second) 1])
        scenarioRequest (6 * Second) 1 = some ⟨"http://b2:9000", true⟩ ∧
    routed (run scenarioController
          [.request scenarioRequest 0 0, .request scenarioRequest (4 * Second) 1])
        scenarioRequest (6 * Second) 1 ≠
      routed (run scenarioController [.request scenarioRequest 0 0])
        scenarioRequest (4 * Second) 1 := by
  refine ⟨scenarioController_ok, by decide, by decide, by decide, by decide, by decide⟩

/-! ## The chain in front of the proxy handler -/

/-- In every state reached from a successful `initializeProxies`, `getProxy` returns
an existing proxy. -/
theorem getProxy_reachable {U F : Type} (urlParse : String → Option U)
    (parseFloat : String → Option F) (rc0 rc : routerController U F)
    (hinit : initializeProxies urlParse parseFloat rc0 = .ok rc)
    (events : List Event) (r : Request) (now : Int) (draw : Nat) :
    ∃ rc' proxy, getProxy (run rc events) r now draw = some (rc', some proxy) := by
  obtain ⟨-, -, -, hp, -, -⟩ := initializeProxies_ok urlParse parseFloat rc0 rc hinit
  obtain ⟨hsame, hinv⟩ := init_inv urlParse parseFloat rc0 rc hinit
  obtain ⟨⟨-, hu, hpx, -, -, c, -, hc, -, -⟩, hne', -, c2, hc2, hv⟩ :=
    run_preserves rc events rc hsame hinv
  have hceq : c2 = c := by rw [hc] at hc2; exact (Option.some.inj hc2).symm
  subst hceq
  cases hget : c2.Get (requestIdentifier r) now with
  | some url =>
    obtain ⟨it, hit, -, hobj⟩ := Cache.Get_eq_some.mp hget
    have hmem : url ∈ rc.urls := by rw [← hu, ← hobj]; exact hv _ it hit
    obtain ⟨pu, -, hpp⟩ := hp url hmem
    exact ⟨_, ⟨pu, true⟩, by rw [getProxy_hit draw hc hget, hpx, hpp]⟩
  | none =>
    obtain ⟨u, -, hmem, hg⟩ := getProxy_miss draw hc hget hne'
    rw [hu] at hmem
    obtain ⟨pu, -, hpp⟩ := hp u hmem
    exact ⟨_, ⟨pu, true⟩, by rw [hg, hpx, hpp]⟩

/-- The steps `handleProxyRequest` runs: always its limiter check first; a rejection
(or a missing limiter) ends it there with the controller and the request untouched;
otherwise normalization and selection follow, and the forward comes last. -/
theorem handleProxyRequest_trace {U F : Type} (rc : routerController U F) (c : Request)
    (o : Oracle) :
    ((handleProxyRequest rc c o).trace = [.limitByKeys] ∧
        (handleProxyRequest rc c o).rc = rc ∧ (handleProxyRequest rc c o).request = c) ∨
    (o.limitReached = false ∧
      ((handleProxyRequest rc c o).trace = [.limitByKeys, .normalize, .selectBackend] ∨
       (handleProxyRequest rc c o).trace =
          [.limitByKeys, .normalize, .selectBackend, .forward])) := by
  unfold handleProxyRequest
  cases hl : rc.rateLimiter with
  | none => left; simp
  | some lmt =>
    cases hr : o.limitReached with
    | true => left; simp [LimitByKeys]
    | false =>
      right
      refine ⟨rfl, ?_⟩
      simp only [LimitByKeys, Bool.false_eq_true, if_false]
      split
      · left; rfl
      · split
        · left; rfl
        · split
          · right; rfl
          · right; rfl

/-! ## The chains of the static routes -/

/-- The steps of a chain made of the engine middleware and one route handler that
writes `reply`. -/
theorem static_chain_run {U F : Type} (mw : Middleware) (o : Oracle)
    (rc : routerController U F) (r : Request) (h : HandlerFunc)
    (hh : h = .welcome ∨ h = .opts ∨ h = .notFound) :
    (runChain mw o (engineChain ++ [h]) (Served.start rc r)).trace <+:
        (engineChain ++ [h]).map Stage.handler ∧
    [Stage.handler .ginLogger, .handler .ginRecovery, .handler .cors] <+:
        (runChain mw o (engineChain ++ [h]) (Served.start rc r)).trace ∧
    (∀ st ∈ (runChain mw o (engineChain ++ [h]) (Served.start rc r)).trace,
        st ≠ .handler .handleProxyRequest ∧ st ≠ .limitByKeys ∧ st ≠ .normalize ∧
        st ≠ .selectBackend ∧ st ≠ .forward) ∧
    (runChain mw o (engineChain ++ [h]) (Served.start rc r)).rc = rc ∧
    (runChain mw o (engineChain ++ [h]) (Served.start rc r)).request = r ∧
    (∀ g reply, g ∈ [HandlerFunc.cors, .rateLimiterMiddleware 0, .ipRangeAllowedMiddleware,
          .ipAllowedMiddleware] →
        Stage.handler g ∈ (runChain mw o (engineChain ++ [h]) (Served.start rc r)).trace →
        mw g r = some reply →
        (runChain mw o (engineChain ++ [h]) (Served.start rc r)).trace.getLast? =
            some (Stage.handler g) ∧
        (runChain mw o (engineChain ++ [h]) (Served.start rc r)).outcome =
            some (.reply reply)) ∧
    ((∀ g, mw g r = none) →
        (runChain mw o (engineChain ++ [h]) (Served.start rc r)).trace =
            (engineChain ++ [h]).map Stage.handler ∧
        (runChain mw o (engineChain ++ [h]) (Served.start rc r)).outcome =
            (runChain mw o [h] (Served.start rc r)).outcome) := by
  refine ⟨?_, ?_, ?_, ?_, ?_, ?_, ?_⟩
  · rcases hh with e | e | e <;> subst e <;>
    simp only [engineChain, runChain, Served.start, List.nil_append, List.cons_append] <;>
    cases h1 : mw .cors r <;> cases h2 : mw (.rateLimiterMiddleware 0) r <;>
    cases h3 : mw .ipRangeAllowedMiddleware r <;> cases h4 : mw .ipAllowedMiddleware r <;>
    simp only [runChain] <;> decide
  · rcases hh with e | e | e <;> subst e <;>
    simp only [engineChain, runChain, Served.start, List.nil_append, List.cons_append] <;>
    cases h1 : mw .cors r <;> cases h2 : mw (.rateLimiterMiddleware 0) r <;>
    cases h3 : mw .ipRangeAllowedMiddleware r <;> cases h4 : mw .ipAllowedMiddleware r <;>
    simp only [runChain] <;> decide
  · rcases hh with e | e | e <;> subst e <;>
    simp only [engineChain, runChain, Served.start, List.nil_append, List.cons_append] <;>
    cases h1 : mw .cors r <;> cases h2 : mw (.rateLimiterMiddleware 0) r <;>
    cases h3 : mw .ipRangeAllowedMiddleware r <;> cases h4 : mw .ipAllowedMiddleware r <;>
    simp only [runChain] <;> decide
  · rcases hh with e | e | e <;> subst e <;>
    simp only [engineChain, runChain, Served.start, List.nil_append, List.cons_append] <;>
    cases h1 : mw .cors r <;> cases h2 : mw (.rateLimiterMiddleware 0) r <;>
    cases h3 : mw .ipRangeAllowedMiddleware r <;> cases h4 : mw .ipAllowedMiddleware r <;>
    rfl
  · rcases hh with e | e | e <;> subst e <;>
    simp only [engineChain, runChain, Served.start, List.nil_append, List.cons_append] <;>
    cases h1 : mw .cors r <;> cases h2 : mw (.rateLimiterMiddleware 0) r <;>
    cases h3 : mw .ipRangeAllowedMiddleware r <;> cases h4 : mw .ipAllowedMiddleware r <;>
    rfl
  · intro g reply hg hmem hrej
    simp only [List.mem_cons, List.mem_singleton, List.not_mem_nil, or_false] at hg
    simp only [engineChain, runChain, Served.start, List.nil_append, List.cons_append] at hmem ⊢
    cases h1 : mw .cors r with
    | some _ =>
      simp only [h1] at hmem
      rcases hg with e | e | e | e <;> subst e <;> simp_all
    | none =>
    cases h2 : mw (.rateLimiterMiddleware 0) r with
    | some _ =>
      simp only [h1, h2] at hmem
      rcases hg with e | e | e | e <;> subst e <;> simp_all
    | none =>
    cases h3 : mw .ipRangeAllowedMiddleware r with
    | some _ =>
      simp only [h1, h2, h3] at hmem
      rcases hg with e | e | e | e <;> subst e <;> simp_all
    | none =>
    cases h4 : mw .ipAllowedMiddleware r with
    | some _ =>
      simp only [h1, h2, h3, h4] at hmem
      rcases hg with e | e | e | e <;> subst e <;> simp_all
    | none =>
      exfalso
      rcases hg with e | e | e | e <;> subst e <;> simp_all
  · intro hall
    rcases hh with e | e | e <;> subst e <;>
    simp [engineChain, runChain, Served.start, hall]


/-! ## C2: path normalization in `handleProxyRequest` -/

theorem splitSlash_ne_nil (p : List Char) : splitSlash p ≠ [] := by
  cases p with
  | nil => simp [splitSlash]
  | cons c cs =>
    rw [splitSlash]
    split
    · simp
    · split <;> simp

theorem splitSlash_no_slash_mem : ∀ (p : List Char) (s : List Char),
    s ∈ splitSlash p → '/' ∉ s := by
  intro p
  induction p with
  | nil => intro s hs; simp [splitSlash] at hs; subst hs; simp
  | cons c cs ih =>
    intro s hs
    rw [splitSlash] at hs
    split at hs
    · rcases List.mem_cons.mp hs with h | h
      · subst h; simp
      · exact ih s h
    · rename_i hc
      split at hs
      · rename_i heq
        exact absurd heq (splitSlash_ne_nil cs)
      · rename_i s0 ss heq
        rcases List.mem_cons.mp hs with h | h
        · subst h
          have h0 : '/' ∉ s0 := ih s0 (by rw [heq]; exact List.mem_cons_self _ _)
          intro hmem
          rcases List.mem_cons.mp hmem with h1 | h1
          · exact hc h1.symm
          · exact h0 h1
        · exact ih s (by rw [heq]; exact List.mem_cons_of_mem _ h)

theorem splitSlash_of_no_slash : ∀ (s : List Char), '/' ∉ s → splitSlash s = [s] := by
  intro s
  induction s with
  | nil => intro _; rfl
  | cons c cs ih =>
    intro h
    have hc : c ≠ '/' := fun e => h (e ▸ List.mem_cons_self _ _)
    have hcs : '/' ∉ cs := fun e => h (List.mem_cons_of_mem _ e)
    rw [splitSlash, if_neg hc, ih hcs]

theorem splitSlash_append_slash : ∀ (s t : List Char), '/' ∉ s →
    splitSlash (s ++ '/' :: t) = s :: splitSlash t := by
  intro s
  induction s with
  | nil => intro t _; simp [splitSlash]
  | cons c cs ih =>
    intro t h
    have hc : c ≠ '/' := fun e => h (e ▸ List.mem_cons_self _ _)
    have hcs : '/' ∉ cs := fun e => h (List.mem_cons_of_mem _ e)
    rw [List.cons_append, splitSlash, if_neg hc, ih t hcs]

theorem joinSlash_cons_cons (e f : List Char) (es : List (List Char)) :
    joinSlash (e :: f :: es) = e ++ '/' :: joinSlash (f :: es) := rfl

theorem splitSlash_joinSlash : ∀ (es : List (List Char)), es ≠ [] →
    (∀ e ∈ es, '/' ∉ e) → splitSlash (joinSlash es) = es := by
  intro es
  induction es with
  | nil => intro h; exact absurd rfl h
  | cons e rest ih =>
    intro _ hall
    cases rest with
    | nil => exact splitSlash_of_no_slash e (hall e (List.mem_cons_self _ _))
    | cons f fs =>
      rw [joinSlash_cons_cons, splitSlash_append_slash _ _ (hall e (List.mem_cons_self _ _)),
        ih (by simp) (fun x hx => hall x (List.mem_cons_of_mem _ hx))]

theorem joinSlash_append_singleton : ∀ (es : List (List Char)) (l : List Char), es ≠ [] →
    joinSlash (es ++ [l]) = joinSlash es ++ '/' :: l := by
  intro es
  induction es with
  | nil => intro l h; exact absurd rfl h
  | cons e rest ih =>
    intro l _
    cases rest with
    | nil => rfl
    | cons f fs =>
      rw [List.cons_append, List.cons_append, joinSlash_cons_cons, ← List.cons_append,
        ih l (by simp), joinSlash_cons_cons]
      simp

theorem cleanElem_real (rooted : Bool) (out : lazybuf) (e : List Char)
    (he : '/' ∉ e) (hout : ∀ x ∈ out.elems, RealElem x) :
    (∀ x ∈ (cleanElem rooted out e).elems, RealElem x) ∧
    (rooted = true → (cleanElem rooted out e).dotdots = out.dotdots) := by
  unfold cleanElem
  by_cases h1 : e = []
  · simp [h1]; exact hout
  · by_cases h2 : e = ['.']
    · simp [h2]; exact hout
    · by_cases h3 : e = ['.', '.']
      · simp only [h3]
        cases hel : out.elems with
        | nil =>
          cases rooted <;> simp [hel]
        | cons a rest =>
          simp
          intro x hx
          exact hout x (by rw [hel]; exact List.mem_cons_of_mem _ hx)
      · rw [if_neg h1, if_neg h2, if_neg h3]
        refine ⟨?_, fun _ => rfl⟩
        intro x hx
        rcases List.mem_cons.mp hx with h | h
        · subst h; exact ⟨h1, h2, h3, he⟩
        · exact hout x h

theorem foldl_cleanElem_real (rooted : Bool) : ∀ (segs : List (List Char)) (out : lazybuf),
    (∀ e ∈ segs, '/' ∉ e) → (∀ x ∈ out.elems, RealElem x) →
    (∀ x ∈ (segs.foldl (cleanElem rooted) out).elems, RealElem x) ∧
    (rooted = true → (segs.foldl (cleanElem rooted) out).dotdots = out.dotdots) := by
  intro segs
  induction segs with
  | nil => intro out _ h; exact ⟨h, fun _ => rfl⟩
  | cons e rest ih =>
    intro out hs hout
    have h1 := cleanElem_real rooted out e (hs e (List.mem_cons_self _ _)) hout
    have h2 := ih (cleanElem rooted out e) (fun x hx => hs x (List.mem_cons_of_mem _ hx)) h1.1
    refine ⟨h2.1, fun hr => ?_⟩
    rw [List.foldl_cons, h2.2 hr, h1.2 hr]


theorem cleanChars_rooted (rest : List Char) :
    ∃ es, (∀ e ∈ es, RealElem e) ∧ cleanChars ('/' :: rest) = '/' :: joinSlash es := by
  obtain ⟨h1, h2⟩ := foldl_cleanElem_real true (splitSlash ('/' :: rest))
    { dotdots := 0, elems := [] } (splitSlash_no_slash_mem _) (by simp)
  refine ⟨((splitSlash ('/' :: rest)).foldl (cleanElem true)
    { dotdots := 0, elems := [] }).elems.reverse, ?_, ?_⟩
  · intro e he
    exact h1 e (List.mem_reverse.mp he)
  · have h0 := h2 rfl
    simp only at h0
    simp only [cleanChars, decide_True, lazybuf.string, h0, List.replicate_zero, List.nil_append,
      if_true]

theorem joinSlash_head : ∀ (es : List (List Char)),
    (∀ e ∈ es, e ≠ [] ∧ '/' ∉ e) → (joinSlash es).head? ≠ some '/' := by
  intro es h
  cases es with
  | nil => simp [joinSlash]
  | cons e rest =>
    obtain ⟨hne, hns⟩ := h e (List.mem_cons_self _ _)
    cases e with
    | nil => exact absurd rfl hne
    | cons c cs =>
      have hc : c ≠ '/' := fun e => hns (e ▸ List.mem_cons_self _ _)
      cases rest with
      | nil => simp [joinSlash, hc]
      | cons f fs => simp [joinSlash, hc]

theorem cleanChars_unrooted (p : List Char) (h : p.head? ≠ some '/') :
    (cleanChars p).head? ≠ some '/' := by
  cases p with
  | nil => simp [cleanChars]
  | cons c rest =>
    have hc : c ≠ '/' := by simpa using h
    obtain ⟨h1, -⟩ := foldl_cleanElem_real false (splitSlash (c :: rest))
      { dotdots := 0, elems := [] } (splitSlash_no_slash_mem _) (by simp)
    have hj := joinSlash_head
      (List.replicate ((splitSlash (c :: rest)).foldl (cleanElem false)
          { dotdots := 0, elems := [] }).dotdots ['.', '.'] ++
        ((splitSlash (c :: rest)).foldl (cleanElem false)
          { dotdots := 0, elems := [] }).elems.reverse)
      (by
        intro e he
        rcases List.mem_append.mp he with h | h
        · have := List.eq_of_mem_replicate h
          subst this
          exact ⟨by simp, by decide⟩
        · have := h1 e (List.mem_reverse.mp h)
          exact ⟨this.1, this.2.2.2⟩)
    simp only [cleanChars, hc, decide_False, lazybuf.string, Bool.false_eq_true, if_false]
    split
    · simp
    · exact hj

/-- The shape of a cleaned path under `/api/`: a slash, then real elements joined by
slashes, the last of which is `last`. -/
theorem cleanChars_under_api (p : List Char)
    (h : ['/', 'a', 'p', 'i', '/'].isPrefixOf (cleanChars p) = true) :
    ∃ front last, RealElem last ∧ cleanChars p = front ++ '/' :: last ∧
      (splitSlash (cleanChars p)).getLast? = some last := by
  have hroot : p.head? = some '/' := by
    by_contra hn
    have := cleanChars_unrooted p hn
    cases hcp : cleanChars p with
    | nil => rw [hcp] at h; simp at h
    | cons c cs =>
      rw [hcp] at h this
      simp only [List.isPrefixOf, Bool.and_eq_true, beq_iff_eq] at h
      simp only [List.head?_cons, ne_eq, Option.some.injEq] at this
      exact this h.1.symm
  cases p with
  | nil => simp at hroot
  | cons c rest =>
    simp only [List.head?_cons, Option.some.injEq] at hroot
    subst hroot
    obtain ⟨es, hes, hclean⟩ := cleanChars_rooted rest
    rw [hclean] at h ⊢
    have hns : ∀ e ∈ es, '/' ∉ e := fun e he => (hes e he).2.2.2
    have hne : es ≠ [] := by
      intro e
      subst e
      simp [joinSlash, List.isPrefixOf] at h
    obtain ⟨front, last, hfl⟩ : ∃ front last, es = front ++ [last] :=
      ⟨es.dropLast, es.getLast hne, (List.dropLast_append_getLast hne).symm⟩
    subst hfl
    have hlast : RealElem last := hes last (by simp)
    have hsplit : splitSlash ('/' :: joinSlash (front ++ [last])) = [] :: (front ++ [last]) := by
      rw [splitSlash, if_pos rfl, splitSlash_joinSlash _ hne hns]
    refine ⟨if front = [] then [] else '/' :: joinSlash front, last, hlast, ?_, ?_⟩
    · by_cases hf : front = []
      · subst hf; simp [joinSlash]
      · rw [if_neg hf, joinSlash_append_singleton _ _ hf]; simp
    · rw [hsplit, ← List.cons_append]
      exact List.getLast?_concat _

theorem baseChars_of_shape (front last : List Char) (hl : RealElem last) :
    baseChars (front ++ '/' :: last) = last := by
  obtain ⟨hne, -, -, hns⟩ := hl
  have hrev : (front ++ '/' :: last).reverse = last.reverse ++ '/' :: front.reverse := by simp
  have hstrip : stripTrailingSlashes (front ++ '/' :: last) = front ++ '/' :: last := by
    unfold stripTrailingSlashes
    rw [hrev]
    cases hlr : last.reverse with
    | nil => simp at hlr; exact absurd hlr hne
    | cons c cs =>
      have hc : c ≠ '/' := by
        intro e
        apply hns
        rw [← List.mem_reverse, hlr, e]
        exact List.mem_cons_self _ _
      rw [List.cons_append, List.dropWhile_cons_of_neg (by simpa using hc)]
      rw [← List.cons_append, ← hlr, ← hrev, List.reverse_reverse]
  have hafter : afterLastSlash (front ++ '/' :: last) = last := by
    unfold afterLastSlash
    rw [hrev]
    have htw : List.takeWhile (fun c => decide (c ≠ '/')) (last.reverse ++ '/' :: front.reverse)
        = last.reverse := by
      rw [List.takeWhile_append_of_pos]
      · simp
      · intro c hc
        have : c ≠ '/' := fun e => hns (e ▸ List.mem_reverse.mp hc)
        simpa using this
    rw [htw, List.reverse_reverse]
  unfold baseChars
  cases hfl : front ++ '/' :: last with
  | nil => simp at hfl
  | cons c cs =>
    simp only
    rw [← hfl, hstrip, hafter]
    cases last with
    | nil => exact absurd rfl hne
    | cons a as => rfl

theorem cleanChars_slash_slash (last : List Char) (hl : RealElem last) :
    cleanChars ('/' :: '/' :: last) = '/' :: last := by
  obtain ⟨h1, h2, h3, hns⟩ := hl
  have hs : splitSlash ('/' :: '/' :: last) = [[], [], last] := by
    rw [splitSlash, if_pos rfl, splitSlash, if_pos rfl, splitSlash_of_no_slash _ hns]
  simp only [cleanChars, hs, decide_True, List.foldl_cons, List.foldl_nil]
  simp [cleanElem, h1, h2, h3, lazybuf.string, joinSlash]


theorem Join_slash (b : String) : Join ["/", b] = ⟨cleanChars ('/' :: '/' :: b.data)⟩ := by
  have h1 : ("/" : String) ≠ "" := by decide
  have h2 : String.intercalate "/" ["/", b] = ⟨'/' :: '/' :: b.data⟩ := by
    apply String.ext
    simp [String.intercalate, String.intercalate.go]
  simp only [Join, List.dropWhile, h1, decide_False, h2, Clean]

/-- The path rewriting of `handleProxyRequest` in terms of the cleaned path. -/
theorem normalizePath_spec (p : String) :
    (HasPrefix (Clean p) "/api/" = true →
      normalizePath p = "/" ++ finalSegment (Clean p)) ∧
    (HasPrefix (Clean p) "/api/" = false → normalizePath p = Clean p) := by
  constructor
  · intro h
    have h' : ['/', 'a', 'p', 'i', '/'].isPrefixOf (cleanChars p.data) = true := h
    obtain ⟨front, last, hl, hshape, hlast⟩ := cleanChars_under_api p.data h'
    have hbase : Base (Clean p) = ⟨last⟩ := by
      simp only [Base, Clean, hshape, baseChars_of_shape front last hl]
    have hfin : finalSegment (Clean p) = ⟨last⟩ := by
      simp only [finalSegment, Clean, hlast, Option.getD_some]
    simp only [normalizePath, h, if_true, hbase, hfin, Join_slash,
      cleanChars_slash_slash last hl]
    apply String.ext
    simp
  · intro h
    simp only [normalizePath, h, Bool.false_eq_true, if_false]


/-- After `getProxy` returns, the cache holds a live entry under the fingerprint of the
request it was called with. -/
theorem getProxy_entry_live {U F : Type} (rc rc' : routerController U F) (r : Request)
    (now : Int) (draw : Nat) (p : Option (ReverseProxy U))
    (hd : ∀ c, rc.requestCache = some c → c.defaultExpiration < 2 ^ 63)
    (h : getProxy rc r now draw = some (rc', p)) :
    ∃ c' url, rc'.requestCache = some c' ∧ c'.Get (requestIdentifier r) now = some url := by
  unfold getProxy at h
  cases hc : rc.requestCache with
  | none => simp [hc] at h
  | some c =>
    simp only [hc] at h
    cases hget : c.Get (requestIdentifier r) now with
    | some url =>
      simp only [hget, Option.some.injEq, Prod.mk.injEq] at h
      rw [← h.1]
      exact ⟨c, url, hc, hget⟩
    | none =>
      simp only [hget] at h
      split at h
      · cases h
      · split at h
        · cases h
        · rename_i u _
          simp only [Option.some.injEq, Prod.mk.injEq] at h
          rw [← h.1]
          refine ⟨_, u, rfl, ?_⟩
          apply Cache.Get_eq_some.mpr
          refine ⟨⟨u, if 0 < c.defaultExpiration
                       then wrap64 (UnixNano now + c.defaultExpiration) else 0⟩,
            by simp [Cache.Set, DefaultExpiration], ?_, rfl⟩
          split
          · rename_i hpos
            exact written_item_live u now _ now hpos (hd c hc) (by omega)
          · exact unexpiring_item_live u _

/-- C2 (amended): in every state reached from a successful start-up, for a request
the handler's limiter admits, `handleProxyRequest` rewrites the request path to
`normalizePath` of it, looks the backend up under the fingerprint made of that path
and the raw query (a live cache entry sits under it afterwards), and forwards the
request with that path. For every path whose cleaned form (`path.Clean`) starts with
`/api/`, that path is `/` followed by only the final segment of the cleaned path; in
particular for an already clean path starting with `/api/` it is `/` followed by the
final segment of the original path. A path whose cleaned form does not start with
`/api/` is fingerprinted and forwarded as its cleaned form. -/
theorem proxied_path_is_final_segment_of_cleaned_path {U F : Type}
    (urlParse : String → Option U) (parseFloat : String → Option F)
    (rc0 rc : routerController U F)
    (hinit : initializeProxies urlParse parseFloat rc0 = .ok rc) (events : List Event)
    (c : Request) (o : Oracle) (hadm : o.limitReached = false) :
    (HasPrefix (Clean c.Path) "/api/" = true →
      normalizePath c.Path = "/" ++ finalSegment (Clean c.Path)) ∧
    (Clean c.Path = c.Path → HasPrefix c.Path "/api/" = true →
      normalizePath c.Path = "/" ++ finalSegment c.Path) ∧
    (HasPrefix (Clean c.Path) "/api/" = false → normalizePath c.Path = Clean c.Path) ∧
    (handleProxyRequest (run rc events) c o).request =
      { c with Path := normalizePath c.Path } ∧
    (∃ cache url, (handleProxyRequest (run rc events) c o).rc.requestCache = some cache ∧
      cache.Get (normalizePath c.Path ++ "-" ++ c.RawQuery) o.now = some url) ∧
    (((run rc events).config.SysLog = "true" → o.syslogDial = true) →
      ∃ proxy, (handleProxyRequest (run rc events) c o).outcome =
        some (.forwarded proxy { c with Path := normalizePath c.Path })) := by
  obtain ⟨hs1, hs2⟩ := normalizePath_spec c.Path
  refine ⟨hs1, ?_, hs2, ?_⟩
  · intro hclean hapi
    have := hs1 (by rw [hclean]; exact hapi)
    rw [hclean] at this
    exact this
  · obtain ⟨-, -, -, -, -, ⟨x, -, hl⟩⟩ := initializeProxies_ok urlParse parseFloat rc0 rc hinit
    obtain ⟨hsame, hinv⟩ := init_inv urlParse parseFloat rc0 rc hinit
    obtain ⟨hsame', hinv'⟩ := run_preserves rc events rc hsame hinv
    have hlim := hsame'.2.2.2.1
    rw [hl] at hlim
    obtain ⟨rc', proxy, hg⟩ := getProxy_reachable urlParse parseFloat rc0 rc hinit events
      { c with Path := normalizePath c.Path } o.now o.draw
    obtain ⟨cache, url, hc', hlive⟩ := getProxy_entry_live _ _ _ _ _ _
      (fun c hc => (reachable_default urlParse parseFloat rc0 rc hinit events c hc).1) hg
    have hcfg : rc'.config = (run rc events).config := by
      obtain ⟨-, -, -, -, c0, c1, -, hc1, -, -⟩ := hsame'
      have := step_preserves (run rc events) (run rc events)
        (.request { c with Path := normalizePath c.Path } o.now o.draw)
        (SameRegistry.refl hc1) hinv'
      simp only [step, hg] at this
      exact this.1.1
    have hreq : (handleProxyRequest (run rc events) c o).request =
          { c with Path := normalizePath c.Path } ∧
        (handleProxyRequest (run rc events) c o).rc = rc' := by
      simp only [handleProxyRequest, hlim, LimitByKeys, hadm, Bool.false_eq_true, if_false, hg]
      split <;> simp
    refine ⟨hreq.1, ⟨cache, url, ?_, hlive⟩, ?_⟩
    · rw [hreq.2]; exact hc'
    · intro hsys
      refine ⟨proxy, ?_⟩
      simp only [handleProxyRequest, hlim, LimitByKeys, hadm, Bool.false_eq_true, if_false, hg,
        hcfg]
      by_cases hs : (run rc events).config.SysLog = "true"
      · simp [hs, hsys hs]
      · simp [hs]

/-- C2 (amended) at the example of the specification: `/api/v1/users/42` is rewritten
to `/42`. -/
theorem proxied_path_is_final_segment_of_cleaned_path_witness :
    initializeProxies scenarioParse scenarioFloat (routerController.new scenarioConfig) =
        .ok scenarioController ∧
    admitted.limitReached = false ∧
    HasPrefix (Clean "/api/v1/users/42") "/api/" = true ∧
    normalizePath "/api/v1/users/42" = "/" ++ finalSegment (Clean "/api/v1/users/42") ∧
    "/" ++ finalSegment (Clean "/api/v1/users/42") = "/42" :=
  ⟨scenarioController_ok, rfl, by decide,
   (proxied_path_is_final_segment_of_cleaned_path scenarioParse scenarioFloat
      (routerController.new scenarioConfig) scenarioController scenarioController_ok []
      { scenarioRequest with Path := "/api/v1/users/42" } admitted rfl).1 (by decide),
   by decide⟩

/-- C2 (as stated, refuted): the path `/api/v1/users/..` starts with `/api/` and its
final segment is `..`, but `handleProxyRequest` cleans the path first (to `/api/v1`)
and fingerprints and forwards `/v1`, not `/..`. -/
theorem dotdot_path_not_reduced_to_its_final_segment :
    HasPrefix "/api/v1/users/.." "/api/" = true ∧
    finalSegment "/api/v1/users/.." = ".." ∧
    Clean "/api/v1/users/.." = "/api/v1" ∧
    normalizePath "/api/v1/users/.." = "/v1" ∧
    normalizePath "/api/v1/users/.." ≠ "/" ++ finalSegment "/api/v1/users/.." ∧
    (handleProxyRequest scenarioController
        { scenarioRequest with Path := "/api/v1/users/.." } admitted).outcome =
      some (.forwarded ⟨"http://b1:9000", true⟩ { scenarioRequest with Path := "/v1" }) ∧
    ((handleProxyRequest scenarioController
        { scenarioRequest with Path := "/api/v1/users/.." } admitted).rc.requestCache.bind
      (fun cache => cache.Get "/v1-x=1" 0)) = some "http://b1:9000" := by
  refine ⟨by decide, by decide, by decide, by decide, by decide, by decide, by decide⟩

/-! ## Dispatch lemmas -/

theorem cleanPath_shape (p : String) :
    ∃ body trail, (cleanPath p).data = '/' :: body ++ trail ∧
      (body = [] → trail = []) ∧ body.head? ≠ some '/' := by
  unfold cleanPath
  cases hp : p.data with
  | nil => exact ⟨[], [], rfl, fun _ => rfl, by simp⟩
  | cons c cs =>
    simp only
    obtain ⟨h1, -⟩ := foldl_cleanElem_real true (splitSlash (c :: cs))
      { dotdots := 0, elems := [] } (splitSlash_no_slash_mem _) (by simp)
    refine ⟨_, _, rfl, ?_, ?_⟩
    · intro hb
      simp [hb]
    · apply joinSlash_head
      intro e he
      have := h1 e (List.mem_reverse.mp he)
      exact ⟨this.1, this.2.2.2⟩

theorem cleanPath_ne_empty (p : String) : (cleanPath p).data ≠ [] := by
  obtain ⟨body, trail, h, -, -⟩ := cleanPath_shape p
  rw [h]; simp

theorem cleanPath_ne_slash_slash (p : String) : (cleanPath p).data ≠ ['/', '/'] := by
  obtain ⟨body, trail, h, hb, hh⟩ := cleanPath_shape p
  rw [h]
  intro e
  cases body with
  | nil => rw [hb rfl] at e; simp at e
  | cons c cs =>
    simp only [List.cons_append, List.cons.injEq, true_and] at e
    simp only [List.head?_cons, ne_eq, Option.some.injEq] at hh
    exact hh e.1


theorem accepts_literal_root (m : String) (hs : List HandlerFunc) (p : String) :
    RouteEntry.accepts ⟨m, "/", hs⟩ p = decide ("/" = p) := rfl

theorem accepts_literal_opts (m : String) (hs : List HandlerFunc) (p : String) :
    RouteEntry.accepts ⟨m, "/opts", hs⟩ p = decide ("/opts" = p) := rfl

theorem accepts_catch_all (m : String) (hs : List HandlerFunc) (p : String) :
    RouteEntry.accepts ⟨m, "/api/*proxyPath", hs⟩ p = HasPrefix p "/api/" := rfl

theorem tsr_literal_root (m : String) (hs : List HandlerFunc) (p : String) :
    RouteEntry.tsr ⟨m, "/", hs⟩ p =
      (decide (['/'] = p.data ++ ['/']) || decide (p.data = ['/', '/'])) := rfl

theorem tsr_literal_opts (m : String) (hs : List HandlerFunc) (p : String) :
    RouteEntry.tsr ⟨m, "/opts", hs⟩ p =
      (decide (['/', 'o', 'p', 't', 's'] = p.data ++ ['/']) ||
        decide (p.data = ['/', 'o', 'p', 't', 's', '/'])) := rfl

theorem tsr_catch_all (m : String) (hs : List HandlerFunc) (p : String) :
    RouteEntry.tsr ⟨m, "/api/*proxyPath", hs⟩ p = decide (p.data = ['/', 'a', 'p', 'i']) := rfl

/-- The routes of each method's tree. -/
theorem tree_of_method (m : String) :
    (m = "GET" ∧ NewRouterController.trees.filter (fun r => decide (r.Method = m)) =
        [⟨"GET", "/", engineChain ++ [.welcome]⟩, ⟨"GET", "/api/*proxyPath", proxyChain⟩]) ∨
    (m = "OPTIONS" ∧ NewRouterController.trees.filter (fun r => decide (r.Method = m)) =
        [⟨"OPTIONS", "/opts", engineChain ++ [.opts]⟩,
         ⟨"OPTIONS", "/api/*proxyPath", proxyChain⟩]) ∨
    (m ∈ anyMethods ∧ m ≠ "GET" ∧ m ≠ "OPTIONS" ∧
      NewRouterController.trees.filter (fun r => decide (r.Method = m)) =
        [⟨m, "/api/*proxyPath", proxyChain⟩]) ∨
    (m ∉ anyMethods ∧ NewRouterController.trees.filter (fun r => decide (r.Method = m)) = []) := by
  by_cases hm : m ∈ anyMethods
  · simp only [anyMethods, List.mem_cons, List.mem_singleton, List.not_mem_nil, or_false] at hm
    rcases hm with e | e | e | e | e | e | e | e | e <;> subst e <;> decide
  · right; right; right
    refine ⟨hm, ?_⟩
    rw [List.filter_eq_nil_iff]
    intro e he
    have hall : ∀ e ∈ NewRouterController.trees, e.Method ∈ anyMethods := by decide
    have := hall e he
    simp only [decide_eq_true_eq]
    intro h
    exact hm (h ▸ this)

theorem engine_switches :
    NewRouterController.RemoveExtraSlash = true ∧
    NewRouterController.RedirectTrailingSlash = true ∧
    NewRouterController.allNoRoute = engineChain ++ [.notFound] := by decide

/-- A request whose method gin's `Any` registers and whose cleaned path is under
`/api/` is dispatched to the chain of the proxy route. -/
theorem dispatch_proxy (r : Request) (hm : r.Method ∈ anyMethods)
    (hp : HasPrefix (cleanPath r.Path) "/api/" = true) :
    NewRouterController.handleHTTPRequest r = .run proxyChain := by
  obtain ⟨h1, h2, h3⟩ := engine_switches
  have hroot : ¬ "/" = cleanPath r.Path := by
    intro e; rw [← e] at hp; exact absurd hp (by decide)
  have hopts : ¬ "/opts" = cleanPath r.Path := by
    intro e; rw [← e] at hp; exact absurd hp (by decide)
  simp only [Engine.handleHTTPRequest, h1, if_true, Engine.getValue]
  rcases tree_of_method r.Method with ⟨-, ht⟩ | ⟨-, ht⟩ | ⟨-, -, -, ht⟩ | ⟨hn, -⟩
  · rw [ht]
    simp [List.find?, accepts_literal_root, accepts_catch_all, hroot, hp]
  · rw [ht]
    simp [List.find?, accepts_literal_opts, accepts_catch_all, hopts, hp]
  · rw [ht]
    simp [List.find?, accepts_catch_all, hp]
  · exact absurd hm hn

/-- Every other request is dispatched to a static route, to a trailing-slash redirect
or to the no-route chain. -/
theorem dispatch_static (r : Request)
    (hnot : ¬ (r.Method ∈ anyMethods ∧ HasPrefix (cleanPath r.Path) "/api/" = true)) :
    NewRouterController.handleHTTPRequest r =
      if r.Method = "GET" ∧ cleanPath r.Path = "/" then .run (engineChain ++ [.welcome])
      else if r.Method = "OPTIONS" ∧ cleanPath r.Path = "/opts" then
        .run (engineChain ++ [.opts])
      else if (r.Method ∈ anyMethods ∧ r.Method ≠ "CONNECT" ∧ cleanPath r.Path = "/api") ∨
          (r.Method = "OPTIONS" ∧ cleanPath r.Path = "/opts/") then redirectTrailingSlash r
      else .run (engineChain ++ [.notFound]) := by
  obtain ⟨h1, h2, h3⟩ := engine_switches
  have hne := cleanPath_ne_empty r.Path
  have hss := cleanPath_ne_slash_slash r.Path
  simp only [Engine.handleHTTPRequest, h1, h2, h3, if_true, Engine.getValue]
  generalize cleanPath r.Path = p at *
  have hdata : ∀ q : String, p.data = q.data ↔ p = q := fun q => String.ext_iff.symm
  have hapi : p.data = ['/', 'a', 'p', 'i'] ↔ p = "/api" := hdata "/api"
  have hoptss : p.data = ['/', 'o', 'p', 't', 's', '/'] ↔ p = "/opts/" := hdata "/opts/"
  have ht1 : ¬ ['/'] = p.data ++ ['/'] := by
    intro e
    cases hd : p.data with
    | nil => exact hne hd
    | cons c cs => rw [hd] at e; simp at e
  have ht2 : ¬ ['/', 'o', 'p', 't', 's'] = p.data ++ ['/'] := by
    intro e
    have := congrArg List.getLast? e
    simp at this
  rcases tree_of_method r.Method with ⟨hm, ht⟩ | ⟨hm, ht⟩ | ⟨hm, hg, ho, ht⟩ | ⟨hn, ht⟩
  · have hpre : HasPrefix p "/api/" = false := by
      cases h : HasPrefix p "/api/" with
      | false => rfl
      | true => exact absurd ⟨by rw [hm]; decide, h⟩ hnot
    rw [ht]
    by_cases hr : p = "/"
    · subst hr
      simp [List.find?, accepts_literal_root, hm]
    · have hr' : ¬ "/" = p := fun e => hr e.symm
      by_cases ha : p = "/api"
      · subst ha
        simp [List.find?, accepts_literal_root, accepts_catch_all, tsr_literal_root,
          tsr_catch_all, hm, anyMethods, hpre]
      · have ha' : ¬ p.data = ['/', 'a', 'p', 'i'] := fun e => ha (hapi.mp e)
        have hgo : ¬ ("GET" = "OPTIONS") := by decide
        simp [List.find?, accepts_literal_root, accepts_catch_all, tsr_literal_root,
          tsr_catch_all, hm, hr, hr', hpre, ha, ha', ht1, hss, hgo]
  · have hpre : HasPrefix p "/api/" = false := by
      cases h : HasPrefix p "/api/" with
      | false => rfl
      | true => exact absurd ⟨by rw [hm]; decide, h⟩ hnot
    rw [ht]
    have hog : ¬ ("OPTIONS" = "GET") := by decide
    by_cases hr : p = "/opts"
    · subst hr
      simp [List.find?, accepts_literal_opts, hm, hog]
    · have hr' : ¬ "/opts" = p := fun e => hr e.symm
      by_cases ha : p = "/api"
      · subst ha
        simp [List.find?, accepts_literal_opts, accepts_catch_all, tsr_literal_opts,
          tsr_catch_all, hm, anyMethods, hog, hpre]
      · have ha' : ¬ p.data = ['/', 'a', 'p', 'i'] := fun e => ha (hapi.mp e)
        by_cases hs : p = "/opts/"
        · subst hs
          simp [List.find?, accepts_literal_opts, accepts_catch_all, tsr_literal_opts,
            tsr_catch_all, hm, anyMethods, hog, hpre]
        · have hs' : ¬ p.data = ['/', 'o', 'p', 't', 's', '/'] := fun e => hs (hoptss.mp e)
          simp [List.find?, accepts_literal_opts, accepts_catch_all, tsr_literal_opts,
            tsr_catch_all, hm, hr, hr', hpre, ha, ha', hs, hs', ht2, hog]
  · have hpre : HasPrefix p "/api/" = false := by
      cases h : HasPrefix p "/api/" with
      | false => rfl
      | true => exact absurd ⟨hm, h⟩ hnot
    rw [ht]
    by_cases ha : p = "/api"
    · subst ha
      by_cases hc : r.Method = "CONNECT"
      · simp [List.find?, accepts_catch_all, tsr_catch_all, hg, ho, hm, hc, hpre]
      · simp [List.find?, accepts_catch_all, tsr_catch_all, hg, ho, hm, hc, hpre]
    · have ha' : ¬ p.data = ['/', 'a', 'p', 'i'] := fun e => ha (hapi.mp e)
      simp [List.find?, accepts_catch_all, tsr_catch_all, hg, ho, hm, hpre, ha, ha']
  · rw [ht]
    have hg : ¬ r.Method = "GET" := fun e => hn (e ▸ by decide)
    have ho : ¬ r.Method = "OPTIONS" := fun e => hn (e ▸ by decide)
    simp [List.find?, hg, ho, hn]

/-! ## C4 and C5: requests as gin dispatches them -/

/-- The run of the chain of the proxy route on a request: the steps run are a prefix
of the fixed sequence; a rejecting middleware is the last step run, its reply is the
response and the controller is untouched; a rejection by the handler's limiter is the
last step run, with the controller and the request untouched; a request that nothing
rejects runs the whole sequence, and the proxy it is forwarded to is the one `getProxy`
returns for the request with the normalized path. -/
theorem proxy_chain_run {U F : Type} (urlParse : String → Option U)
    (parseFloat : String → Option F) (rc0 rc : routerController U F)
    (hinit : initializeProxies urlParse parseFloat rc0 = .ok rc) (events : List Event)
    (mw : Middleware) (o : Oracle) (r : Request) :
    (runChain mw o proxyChain (Served.start (run rc events) r)).trace <+: proxyStages ∧
    (∀ g reply, g ∈ [HandlerFunc.cors, .rateLimiterMiddleware 0, .ipRangeAllowedMiddleware,
          .ipAllowedMiddleware, .rateLimiterMiddleware 1] →
        Stage.handler g ∈ (runChain mw o proxyChain (Served.start (run rc events) r)).trace →
        mw g r = some reply →
        (runChain mw o proxyChain (Served.start (run rc events) r)).trace.getLast? =
            some (Stage.handler g) ∧
        (runChain mw o proxyChain (Served.start (run rc events) r)).outcome =
            some (.reply reply) ∧
        (runChain mw o proxyChain (Served.start (run rc events) r)).rc = run rc events) ∧
    (Stage.limitByKeys ∈ (runChain mw o proxyChain (Served.start (run rc events) r)).trace →
        o.limitReached = true →
        (runChain mw o proxyChain (Served.start (run rc events) r)).trace.getLast? =
            some Stage.limitByKeys ∧
        (runChain mw o proxyChain (Served.start (run rc events) r)).rc = run rc events ∧
        (runChain mw o proxyChain (Served.start (run rc events) r)).request = r) ∧
    ((∀ g, mw g r = none) → o.limitReached = false →
        ((run rc events).config.SysLog = "true" → o.syslogDial = true) →
        (runChain mw o proxyChain (Served.start (run rc events) r)).trace = proxyStages ∧
        ∃ proxy,
          getProxy (run rc events) { r with Path := normalizePath r.Path } o.now o.draw =
            some ((runChain mw o proxyChain (Served.start (run rc events) r)).rc,
                  some proxy) ∧
          (runChain mw o proxyChain (Served.start (run rc events) r)).outcome =
            some (.forwarded proxy { r with Path := normalizePath r.Path })) := by
  refine ⟨?_, ?_, ?_, ?_⟩
  · simp only [proxyChain, runChain, Served.start, List.nil_append, List.cons_append]
    cases h1 : mw .cors r with
    | some _ => simp only; decide
    | none =>
    cases h2 : mw (.rateLimiterMiddleware 0) r with
    | some _ => simp only; decide
    | none =>
    cases h3 : mw .ipRangeAllowedMiddleware r with
    | some _ => simp only; decide
    | none =>
    cases h4 : mw .ipAllowedMiddleware r with
    | some _ => simp only; decide
    | none =>
    cases h5 : mw (.rateLimiterMiddleware 1) r with
    | some _ => simp only; decide
    | none =>
    simp only
    rcases handleProxyRequest_trace (run rc events) r o with h | ⟨-, h | h⟩
    · rw [h.1]; decide
    · rw [h]; decide
    · rw [h]; decide
  · intro g reply hg hmem hrej
    simp only [proxyChain, runChain, Served.start, List.nil_append, List.cons_append] at hmem ⊢
    simp only [List.mem_cons, List.mem_singleton, List.not_mem_nil, or_false] at hg
    cases h1 : mw .cors r with
    | some _ =>
      simp only [h1] at hmem
      rcases hg with e | e | e | e | e <;> subst e <;> simp_all
    | none =>
    cases h2 : mw (.rateLimiterMiddleware 0) r with
    | some _ =>
      simp only [h1, h2] at hmem
      rcases hg with e | e | e | e | e <;> subst e <;> simp_all
    | none =>
    cases h3 : mw .ipRangeAllowedMiddleware r with
    | some _ =>
      simp only [h1, h2, h3] at hmem
      rcases hg with e | e | e | e | e <;> subst e <;> simp_all
    | none =>
    cases h4 : mw .ipAllowedMiddleware r with
    | some _ =>
      simp only [h1, h2, h3, h4] at hmem
      rcases hg with e | e | e | e | e <;> subst e <;> simp_all
    | none =>
    cases h5 : mw (.rateLimiterMiddleware 1) r with
    | some _ =>
      simp only [h1, h2, h3, h4, h5] at hmem
      rcases hg with e | e | e | e | e <;> subst e <;> simp_all
    | none =>
      exfalso
      rcases hg with e | e | e | e | e <;> subst e <;> simp_all
  · intro hmem hrej
    simp only [proxyChain, runChain, Served.start, List.nil_append, List.cons_append] at hmem ⊢
    cases h1 : mw .cors r with
    | some _ => simp [h1] at hmem
    | none =>
    cases h2 : mw (.rateLimiterMiddleware 0) r with
    | some _ => simp [h1, h2] at hmem
    | none =>
    cases h3 : mw .ipRangeAllowedMiddleware r with
    | some _ => simp [h1, h2, h3] at hmem
    | none =>
    cases h4 : mw .ipAllowedMiddleware r with
    | some _ => simp [h1, h2, h3, h4] at hmem
    | none =>
    cases h5 : mw (.rateLimiterMiddleware 1) r with
    | some _ => simp [h1, h2, h3, h4, h5] at hmem
    | none =>
      simp only
      rcases handleProxyRequest_trace (run rc events) r o with h | ⟨h, -⟩
      · rw [h.1]; exact ⟨rfl, h.2.1, h.2.2⟩
      · rw [hrej] at h; cases h
  · intro hall hadm hsys
    obtain ⟨-, -, -, -, -, ⟨x, -, hl⟩⟩ := initializeProxies_ok urlParse parseFloat rc0 rc hinit
    obtain ⟨hsame, hinv⟩ := init_inv urlParse parseFloat rc0 rc hinit
    obtain ⟨⟨-, -, -, hlim, -⟩, -⟩ := run_preserves rc events rc hsame hinv
    rw [hl] at hlim
    obtain ⟨rc', proxy, hg⟩ := getProxy_reachable urlParse parseFloat rc0 rc hinit events
      { r with Path := normalizePath r.Path } o.now o.draw
    have hcfg : rc'.config = (run rc events).config := by
      have := step_preserves (run rc events) (run rc events)
        (.request { r with Path := normalizePath r.Path } o.now o.draw)
        (run_preserves rc events rc hsame hinv |>.1 |> fun h => by
          obtain ⟨-, -, -, -, c0, c', -, hc', -, -⟩ := h
          exact SameRegistry.refl hc')
        (run_preserves rc events rc hsame hinv).2
      simp only [step, hg] at this
      exact this.1.1
    have hhandler : (handleProxyRequest (run rc events) r o).trace =
          [.limitByKeys, .normalize, .selectBackend, .forward] ∧
        (handleProxyRequest (run rc events) r o).outcome =
          some (.forwarded proxy { r with Path := normalizePath r.Path }) ∧
        (handleProxyRequest (run rc events) r o).rc = rc' := by
      simp only [handleProxyRequest, hlim, LimitByKeys, hadm, Bool.false_eq_true, if_false, hg,
        hcfg]
      by_cases hs : (run rc events).config.SysLog = "true"
      · simp [hs, hsys hs]
      · simp [hs]
    refine ⟨?_, proxy, ?_, ?_⟩
    · simp only [proxyChain, runChain, Served.start, List.nil_append, List.cons_append, hall,
        hhandler.1]
      rfl
    · simp only [proxyChain, runChain, Served.start, List.nil_append, List.cons_append, hall,
        hhandler.2.2]
      exact hg
    · simp only [proxyChain, runChain, Served.start, List.nil_append, List.cons_append, hall,
        hhandler.2.1]
      rfl


/-- C4 (amended): a request whose method is one of those gin's `Any` registers and
whose path, cleaned by gin (`RemoveExtraSlash`), starts with `/api/` is dispatched to
the chain of `/api/*proxyPath`: gin's Logger and Recovery, CORS, the rate-limiter
middleware, the IP-range filter, the IP-allow-list filter, a second rate-limiter
middleware installed on the route, and `handleProxyRequest`, which runs its own limiter
check, then path normalization, then backend selection, then the forward. The steps
the request runs are always a prefix of that fixed sequence; a middleware that rejects
is the last step run, its reply is the response and the selection cache is untouched;
a rejection by the handler's limiter is the last step run, with cache and request
untouched; and in a state reached from a successful start-up a request that nothing
rejects runs the whole sequence and is forwarded, with the normalized path, to the
proxy that `getProxy` selected for that normalized path. -/
theorem proxy_chain_order {U F : Type} (urlParse : String → Option U)
    (parseFloat : String → Option F) (rc0 rc : routerController U F)
    (hinit : initializeProxies urlParse parseFloat rc0 = .ok rc) (events : List Event)
    (mw : Middleware) (o : Oracle) (r : Request)
    (hmethod : r.Method ∈ anyMethods)
    (hpath : HasPrefix (cleanPath r.Path) "/api/" = true) :
    NewRouterController.handleHTTPRequest r = .run proxyChain ∧
    (ServeHTTP NewRouterController mw o (run rc events) r).trace <+: proxyStages ∧
    (∀ g reply, g ∈ [HandlerFunc.cors, .rateLimiterMiddleware 0, .ipRangeAllowedMiddleware,
          .ipAllowedMiddleware, .rateLimiterMiddleware 1] →
        Stage.handler g ∈ (ServeHTTP NewRouterController mw o (run rc events) r).trace →
        mw g r = some reply →
        (ServeHTTP NewRouterController mw o (run rc events) r).trace.getLast? =
            some (Stage.handler g) ∧
        (ServeHTTP NewRouterController mw o (run rc events) r).outcome =
            some (.reply reply) ∧
        (ServeHTTP NewRouterController mw o (run rc events) r).rc = run rc events) ∧
    (Stage.limitByKeys ∈ (ServeHTTP NewRouterController mw o (run rc events) r).trace →
        o.limitReached = true →
        (ServeHTTP NewRouterController mw o (run rc events) r).trace.getLast? =
            some Stage.limitByKeys ∧
        (ServeHTTP NewRouterController mw o (run rc events) r).rc = run rc events ∧
        (ServeHTTP NewRouterController mw o (run rc events) r).request = r) ∧
    ((∀ g, mw g r = none) → o.limitReached = false →
        ((run rc events).config.SysLog = "true" → o.syslogDial = true) →
        (ServeHTTP NewRouterController mw o (run rc events) r).trace = proxyStages ∧
        ∃ proxy,
          getProxy (run rc events) { r with Path := normalizePath r.Path } o.now o.draw =
            some ((ServeHTTP NewRouterController mw o (run rc events) r).rc, some proxy) ∧
          (ServeHTTP NewRouterController mw o (run rc events) r).outcome =
            some (.forwarded proxy { r with Path := normalizePath r.Path })) := by
  have hd := dispatch_proxy r hmethod hpath
  have hs : ServeHTTP NewRouterController mw o (run rc events) r =
      runChain mw o proxyChain (Served.start (run rc events) r) := by
    simp only [ServeHTTP, hd]
  rw [hs]
  exact ⟨hd, proxy_chain_run urlParse parseFloat rc0 rc hinit events mw o r⟩

/-- C4 (amended) at the scenario: `GET /api/foo` rejected by the IP-allow-list filter
runs a prefix of the fixed sequence. -/
theorem proxy_chain_order_witness :
    initializeProxies scenarioParse scenarioFloat (routerController.new scenarioConfig) =
        .ok scenarioController ∧
    scenarioInbound.Method ∈ anyMethods ∧
    HasPrefix (cleanPath scenarioInbound.Path) "/api/" = true ∧
    (ServeHTTP NewRouterController (rejectOnly .ipAllowedMiddleware) admitted
        (run scenarioController []) scenarioInbound).trace <+: proxyStages :=
  ⟨scenarioController_ok, by decide, by decide,
   (proxy_chain_order scenarioParse scenarioFloat (routerController.new scenarioConfig)
      scenarioController scenarioController_ok [] (rejectOnly .ipAllowedMiddleware)
      admitted scenarioInbound (by decide) (by decide)).2.1⟩

/-- C4 (as stated, refuted): `GET /api/foo` runs a rate limiter again after the IP
filters. When every stage admits it, the steps run are Logger, Recovery, CORS, rate
limiter, IP-range, IP-allow-list, the route's rate limiter, the handler with its own
limiter check, normalization, selection, forward: by their places in the order of the
specification `0,1,2,3,1,1,4,4,5`, which is not that order. When only the route's rate
limiter rejects, the request has passed both IP filters and is then answered by a rate
limiter. -/
theorem rate_limiter_runs_again_after_ip_filters :
    NewRouterController.handleHTTPRequest scenarioInbound = .run proxyChain ∧
    (ServeHTTP NewRouterController passAll admitted scenarioController
        scenarioInbound).trace =
      [.handler .ginLogger, .handler .ginRecovery, .handler .cors,
       .handler (.rateLimiterMiddleware 0), .handler .ipRangeAllowedMiddleware,
       .handler .ipAllowedMiddleware, .handler (.rateLimiterMiddleware 1),
       .handler .handleProxyRequest, .limitByKeys, .normalize, .selectBackend, .forward] ∧
    pipelineSteps (ServeHTTP NewRouterController passAll admitted scenarioController
        scenarioInbound).trace =
      [0, 1, 2, 3, 1, 1, 4, 4, 5] ∧
    ¬ inSpecOrder (ServeHTTP NewRouterController passAll admitted scenarioController
        scenarioInbound).trace ∧
    (ServeHTTP NewRouterController (rejectOnly (.rateLimiterMiddleware 1)) admitted
        scenarioController scenarioInbound).trace =
      [.handler .ginLogger, .handler .ginRecovery, .handler .cors,
       .handler (.rateLimiterMiddleware 0), .handler .ipRangeAllowedMiddleware,
       .handler .ipAllowedMiddleware, .handler (.rateLimiterMiddleware 1)] ∧
    (ServeHTTP NewRouterController (rejectOnly (.rateLimiterMiddleware 1)) admitted
        scenarioController scenarioInbound).outcome =
      some (.reply tooMany) := by
  refine ⟨by decide, by decide, by decide, by decide, by decide, by decide⟩

/-- C5 (amended): a request that is not dispatched to the proxy route (its method is
not one gin's `Any` registers, or its path cleaned by gin does not start with `/api/`)
never reaches `handleProxyRequest`: no limiter check of the handler, no path
normalization, no backend selection, no forward, and the controller with its selection
cache and the request are unchanged. Gin answers a path that differs from a registered
route only by the trailing slash (`/api` for every registered method but CONNECT,
`/opts/` for OPTIONS) with a redirect and runs no handler at all. Every other such
request first passes the engine middleware (gin's Logger and Recovery, CORS, the rate
limiter, the IP-range and IP-allow-list filters), each of which may reject it with its
own reply; when none rejects, GET with cleaned path `/` is answered with 200 and the
welcome message, OPTIONS with cleaned path `/opts` with 204 and the two CORS headers,
and anything else with 404 and the fixed JSON message. -/
theorem static_routes_skip_backend_dispatch {U F : Type} (mw : Middleware) (o : Oracle)
    (rc : routerController U F) (r : Request)
    (hnot : ¬ (r.Method ∈ anyMethods ∧ HasPrefix (cleanPath r.Path) "/api/" = true)) :
    (NewRouterController.handleHTTPRequest r =
      if r.Method = "GET" ∧ cleanPath r.Path = "/" then .run (engineChain ++ [.welcome])
      else if r.Method = "OPTIONS" ∧ cleanPath r.Path = "/opts" then
        .run (engineChain ++ [.opts])
      else if (r.Method ∈ anyMethods ∧ r.Method ≠ "CONNECT" ∧ cleanPath r.Path = "/api") ∨
          (r.Method = "OPTIONS" ∧ cleanPath r.Path = "/opts/") then redirectTrailingSlash r
      else .run (engineChain ++ [.notFound])) ∧
    (∀ st ∈ (ServeHTTP NewRouterController mw o rc r).trace,
        st ≠ .handler .handleProxyRequest ∧ st ≠ .limitByKeys ∧ st ≠ .normalize ∧
        st ≠ .selectBackend ∧ st ≠ .forward) ∧
    (ServeHTTP NewRouterController mw o rc r).rc = rc ∧
    (ServeHTTP NewRouterController mw o rc r).request = r ∧
    (∀ code path, NewRouterController.handleHTTPRequest r = .redirect code path →
        (ServeHTTP NewRouterController mw o rc r).trace = [] ∧
        (ServeHTTP NewRouterController mw o rc r).outcome = some (.redirect code path)) ∧
    (∀ chain, NewRouterController.handleHTTPRequest r = .run chain →
        (chain = engineChain ++ [.welcome] ∨ chain = engineChain ++ [.opts] ∨
          chain = engineChain ++ [.notFound]) ∧
        (ServeHTTP NewRouterController mw o rc r).trace <+: chain.map Stage.handler ∧
        [Stage.handler .ginLogger, .handler .ginRecovery, .handler .cors] <+:
            (ServeHTTP NewRouterController mw o rc r).trace ∧
        (∀ g reply, g ∈ [HandlerFunc.cors, .rateLimiterMiddleware 0,
              .ipRangeAllowedMiddleware, .ipAllowedMiddleware] →
            Stage.handler g ∈ (ServeHTTP NewRouterController mw o rc r).trace →
            mw g r = some reply →
            (ServeHTTP NewRouterController mw o rc r).trace.getLast? =
                some (Stage.handler g) ∧
            (ServeHTTP NewRouterController mw o rc r).outcome = some (.reply reply)) ∧
        ((∀ g, mw g r = none) →
            (ServeHTTP NewRouterController mw o rc r).trace = chain.map Stage.handler ∧
            (chain = engineChain ++ [.welcome] →
              (ServeHTTP NewRouterController mw o rc r).outcome =
                some (.reply { status := 200, headers := [],
                               body := [("message",
                                 "Welcome to the " ++ rc.config.AppName)] })) ∧
            (chain = engineChain ++ [.opts] →
              (ServeHTTP NewRouterController mw o rc r).outcome =
                some (.reply { status := 204,
                               headers := [("Access-Control-Allow-Methods",
                                              "GET, POST, PUT, DELETE, OPTIONS"),
                                           ("Access-Control-Allow-Headers",
                                              "Origin, Content-Length, Content-Type")],
                               body := [] })) ∧
            (chain = engineChain ++ [.notFound] →
              (ServeHTTP NewRouterController mw o rc r).outcome =
                some (.reply { status := 404, headers := [],
                               body := [("message", "Method or route not found in: " ++
                                           rc.config.AppName)] })))) := by
  have hd := dispatch_static r hnot
  have hcls : (∃ h, (h = HandlerFunc.welcome ∨ h = .opts ∨ h = .notFound) ∧
        NewRouterController.handleHTTPRequest r = .run (engineChain ++ [h])) ∨
      (∃ code path, NewRouterController.handleHTTPRequest r = .redirect code path) := by
    rw [hd]
    split
    · exact Or.inl ⟨_, Or.inl rfl, rfl⟩
    · split
      · exact Or.inl ⟨_, Or.inr (Or.inl rfl), rfl⟩
      · split
        · exact Or.inr ⟨_, _, rfl⟩
        · exact Or.inl ⟨_, Or.inr (Or.inr rfl), rfl⟩
  refine ⟨hd, ?_⟩
  rcases hcls with ⟨h, hh, hrun⟩ | ⟨code, path, hred⟩
  · have hs : ServeHTTP NewRouterController mw o rc r =
        runChain mw o (engineChain ++ [h]) (Served.start rc r) := by
      simp only [ServeHTTP, hrun]
    rw [hs]
    obtain ⟨p1, p2, p3, p4, p5, p6, p7⟩ := static_chain_run mw o rc r h hh
    refine ⟨p3, p4, p5, ?_, ?_⟩
    · intro code path hc
      rw [hrun] at hc; cases hc
    · intro chain hc
      rw [hrun] at hc
      have hce : chain = engineChain ++ [h] := by
        simp only [Dispatch.run.injEq] at hc; exact hc.symm
      subst hce
      refine ⟨?_, p1, p2, p6, ?_⟩
      · rcases hh with e | e | e <;> subst e <;> simp
      · intro hall
        obtain ⟨q1, q2⟩ := p7 hall
        refine ⟨q1, ?_, ?_, ?_⟩
        · intro e
          have : h = .welcome := by simpa [engineChain] using e
          subst this
          rw [q2]; simp [runChain, Served.start, Reply.JSON]
        · intro e
          have : h = .opts := by simpa [engineChain] using e
          subst this
          rw [q2]; simp [runChain, Served.start]
        · intro e
          have : h = .notFound := by simpa [engineChain] using e
          subst this
          rw [q2]; simp [runChain, Served.start, Reply.JSON]
  · have hs : ServeHTTP NewRouterController mw o rc r =
        { rc := rc, request := r, outcome := some (.redirect code path), log := none,
          trace := [] } := by
      simp only [ServeHTTP, hred]
    rw [hs]
    refine ⟨by simp, rfl, rfl, ?_, ?_⟩
    · intro code' path' hc
      rw [hred] at hc
      simp only [Dispatch.redirect.injEq] at hc
      obtain ⟨e1, e2⟩ := hc
      subst e1 e2
      exact ⟨rfl, rfl⟩
    · intro chain hc
      rw [hred] at hc; cases hc

/-- C5 (amended) at the scenario: `OPTIONS /opts` rejected by the IP-range filter leaves
the controller unchanged. -/
theorem static_routes_skip_backend_dispatch_witness :
    ¬ (("OPTIONS" : String) ∈ anyMethods ∧ HasPrefix (cleanPath "/opts") "/api/" = true) ∧
    (ServeHTTP NewRouterController (rejectOnly .ipRangeAllowedMiddleware) admitted
        scenarioController { scenarioRoot with Method := "OPTIONS", Path := "/opts" }).rc =
      scenarioController :=
  ⟨by decide,
   (static_routes_skip_backend_dispatch (rejectOnly .ipRangeAllowedMiddleware) admitted
      scenarioController { scenarioRoot with Method := "OPTIONS", Path := "/opts" }
      (by decide)).2.2.1⟩

/-- C5 (as stated, refuted): `GET /` and an unmatched route do enter the first stages
of the dispatch pipeline, and not every request outside `/api/` is answered by the
route table. With every stage admitting, `GET /` runs Logger, Recovery, CORS, the rate
limiter and both IP filters (places `0,1,2,3` of the pipeline order) before the welcome
handler; when the rate limiter rejects, `GET /` is answered by the limiter and the
welcome handler never runs; `GET /missing` runs the same four pipeline stages before
the 404 handler; and `GET /api` is answered with a 301 redirect, not with the 404
body. -/
theorem static_routes_enter_rate_limit_and_ip_filters :
    NewRouterController.handleHTTPRequest scenarioRoot = .run (engineChain ++ [.welcome]) ∧
    (ServeHTTP NewRouterController passAll admitted scenarioController scenarioRoot).trace =
      [.handler .ginLogger, .handler .ginRecovery, .handler .cors,
       .handler (.rateLimiterMiddleware 0), .handler .ipRangeAllowedMiddleware,
       .handler .ipAllowedMiddleware, .handler .welcome] ∧
    pipelineSteps (ServeHTTP NewRouterController passAll admitted scenarioController
        scenarioRoot).trace = [0, 1, 2, 3] ∧
    (ServeHTTP NewRouterController (rejectOnly (.rateLimiterMiddleware 0)) admitted
        scenarioController scenarioRoot).trace =
      [.handler .ginLogger, .handler .ginRecovery, .handler .cors,
       .handler (.rateLimiterMiddleware 0)] ∧
    (ServeHTTP NewRouterController (rejectOnly (.rateLimiterMiddleware 0)) admitted
        scenarioController scenarioRoot).outcome = some (.reply tooMany) ∧
    pipelineSteps (ServeHTTP NewRouterController passAll admitted scenarioController
        { scenarioRoot with Path := "/missing" }).trace = [0, 1, 2, 3] ∧
    (ServeHTTP NewRouterController passAll admitted scenarioController
        { scenarioRoot with Path := "/api" }).outcome = some (.redirect 301 "/api/") := by
  refine ⟨by decide, by decide, by decide, by decide, by decide, by decide, by decide⟩

end GoProxy
